import Mathlib

/-!
Shallow embedding of the layout and dependency-ordering engine of the
`epicsdb2bob` code base (files `utils.py`, `bobfile_gen.py`, `config.py`),
together with theorems settling the specification claims.

Machine integers are modelled as `Int` (Python integers are unbounded).
Python `dict`s are modelled as association lists in insertion order with
distinct keys; `dict` iteration is a fold over that list.  External
collaborators (the EPICS parser, the phoebusgen document builder, the file
system) are out of scope per the spec; only the data they hand to the core
(record lists, include lists, previously written display dimensions) appears,
as function inputs.  Purely stylistic widget attributes (colors, fonts,
alignment, borders' line styles) carry no geometric information and are not
modelled; positions, sizes, ordering, names and macro payloads are.
-/

namespace EpicsDb2Bob

/-- Index of the last occurrence of `c` in `cs`, or `-1` when absent
(Python `str.rfind`). -/
def rfindChar : List Char → Char → Int
  | [], _ => -1
  | a :: rest, c =>
    let r := rfindChar rest c
    if r ≥ 0 then r + 1 else if a = c then 0 else -1

/-- Root part of Python `os.path.splitext(p)`: cut at the last dot when it
comes after the last path separator and the basename is not made of leading
dots only. -/
def splitextRoot (s : String) : String :=
  let p := s.data
  let sepIndex := rfindChar p '/'
  let dotIndex := rfindChar p '.'
  if dotIndex > sepIndex then
    if (List.range p.length).any
        (fun i => decide (sepIndex < (i : Int)) && decide ((i : Int) < dotIndex)
          && (p.getD i '.' != '.')) then
      String.mk (p.take dotIndex.toNat)
    else s
  else s

/-- Python `os.path.basename`: the part after the last `/`. -/
def pathBasename (s : String) : String :=
  String.mk (s.data.drop ((rfindChar s.data '/') + 1).toNat)

/-- `template_to_bob` from `bobfile_gen.py`: template file name to BOB file
name. -/
def template_to_bob (template : String) : String :=
  splitextRoot (pathBasename template) ++ ".bob"

/-! ## Dependency resolver (`order_dbs_by_includes`, `utils.py` lines 17-37) -/

/-- The part of an `epicsdbtools.Database` the resolver consumes: the list
returned by `get_included_templates`. -/
structure Database where
  includes : List String
deriving DecidableEq

/-- Keys of an association list (Python `dict` keys in insertion order). -/
def keysOf {β : Type} (l : List (String × β)) : List String := l.map Prod.fst

/-- One unit considered inside a resolver pass: skip if already resolved;
resolve when every include (extension stripped) is already resolved; resolve
with a warning when some include is not in the input set at all; otherwise
leave for a later pass.  A warning is the pair logged at `utils.py` line 30:
the unit name and its full include list. -/
def resolveStep (databases : List (String × Database))
    (acc : List (String × Database) × List (String × List String))
    (entry : String × Database) :
    List (String × Database) × List (String × List String) :=
  if entry.1 ∈ keysOf acc.1 then acc
  else if ∀ inc ∈ entry.2.includes, splitextRoot inc ∈ keysOf acc.1 then
    (acc.1 ++ [entry], acc.2)
  else if ¬ (∀ inc ∈ entry.2.includes, splitextRoot inc ∈ keysOf databases) then
    (acc.1 ++ [entry], acc.2 ++ [(entry.1, entry.2.includes)])
  else acc

/-- One full pass of the `while` loop body: the inner `for` over
`databases.items()`. -/
def resolvePass (databases : List (String × Database))
    (ordered : List (String × Database)) (warnings : List (String × List String)) :
    List (String × Database) × List (String × List String) :=
  databases.foldl (resolveStep databases) (ordered, warnings)

/-- Outcome of `order_dbs_by_includes`: the ordered units together with the
warnings logged on the way, or the fatal `RuntimeError` (circular includes).
`outOfFuel` is an artefact of the bounded model of the `while` loop and is
proved unreachable (`orderLoopF_ne_outOfFuel`). -/
inductive OrderResult where
  | ok (warnings : List (String × List String)) (ordered : List (String × Database))
  | circular (warnings : List (String × List String))
  | outOfFuel
deriving DecidableEq

/-- The `while len(ordered_dbs) < len(databases)` loop, with a structural
fuel so the model computes; the fuel branch is never taken (see
`orderLoopF_ne_outOfFuel`). -/
def orderLoopF (databases : List (String × Database)) :
    Nat → List (String × Database) → List (String × List String) → OrderResult
  | 0, ordered, warnings =>
    if ordered.length < databases.length then .outOfFuel else .ok warnings ordered
  | fuel + 1, ordered, warnings =>
    if ordered.length < databases.length then
      let next := resolvePass databases ordered warnings
      if next.1.length = ordered.length then .circular next.2
      else orderLoopF databases fuel next.1 next.2
    else .ok warnings ordered

/-- `order_dbs_by_includes` (`utils.py`): iterate passes from the empty
ordered dict until done or stalled. -/
def order_dbs_by_includes (databases : List (String × Database)) : OrderResult :=
  orderLoopF databases (databases.length + 1) [] []

/-! Basic facts about one resolver step and one pass. -/

theorem resolveStep_fst (databases : List (String × Database)) (acc) (entry) :
    (resolveStep databases acc entry).1 = acc.1 ∨
      (resolveStep databases acc entry).1 = acc.1 ++ [entry] := by
  unfold resolveStep
  split
  · exact Or.inl rfl
  · split
    · exact Or.inr rfl
    · split
      · exact Or.inr rfl
      · exact Or.inl rfl

theorem foldl_resolveStep_append (databases : List (String × Database)) :
    ∀ (l : List (String × Database)) (acc : List (String × Database) × List (String × List String)),
      ∃ extra, (l.foldl (resolveStep databases) acc).1 = acc.1 ++ extra := by
  intro l
  induction l with
  | nil => intro acc; exact ⟨[], by simp⟩
  | cons e rest ih =>
    intro acc
    obtain ⟨extra, hextra⟩ := ih (resolveStep databases acc e)
    rcases resolveStep_fst databases acc e with h | h
    · exact ⟨extra, by simpa [h] using hextra⟩
    · exact ⟨e :: extra, by simp [List.foldl_cons, hextra, h]⟩

theorem resolvePass_append (databases ordered : List (String × Database))
    (warnings : List (String × List String)) :
    ∃ extra, (resolvePass databases ordered warnings).1 = ordered ++ extra :=
  foldl_resolveStep_append databases databases (ordered, warnings)

theorem resolvePass_length_le (databases ordered : List (String × Database))
    (warnings : List (String × List String)) :
    ordered.length ≤ (resolvePass databases ordered warnings).1.length := by
  obtain ⟨extra, h⟩ := resolvePass_append databases ordered warnings
  simp [h]

/-- Full case analysis of one resolver step. -/
theorem resolveStep_cases (databases : List (String × Database)) (acc) (entry) :
    (entry.1 ∈ keysOf acc.1 ∧ resolveStep databases acc entry = acc) ∨
    (entry.1 ∉ keysOf acc.1 ∧
      (∀ inc ∈ entry.2.includes, splitextRoot inc ∈ keysOf acc.1) ∧
      resolveStep databases acc entry = (acc.1 ++ [entry], acc.2)) ∨
    (entry.1 ∉ keysOf acc.1 ∧
      ¬ (∀ inc ∈ entry.2.includes, splitextRoot inc ∈ keysOf acc.1) ∧
      ¬ (∀ inc ∈ entry.2.includes, splitextRoot inc ∈ keysOf databases) ∧
      resolveStep databases acc entry = (acc.1 ++ [entry], acc.2 ++ [(entry.1, entry.2.includes)])) ∨
    (entry.1 ∉ keysOf acc.1 ∧
      ¬ (∀ inc ∈ entry.2.includes, splitextRoot inc ∈ keysOf acc.1) ∧
      (∀ inc ∈ entry.2.includes, splitextRoot inc ∈ keysOf databases) ∧
      resolveStep databases acc entry = acc) := by
  unfold resolveStep
  by_cases h1 : entry.1 ∈ keysOf acc.1
  · exact Or.inl ⟨h1, by rw [if_pos h1]⟩
  · by_cases h2 : ∀ inc ∈ entry.2.includes, splitextRoot inc ∈ keysOf acc.1
    · exact Or.inr (Or.inl ⟨h1, h2, by rw [if_neg h1, if_pos h2]⟩)
    · by_cases h3 : ∀ inc ∈ entry.2.includes, splitextRoot inc ∈ keysOf databases
      · exact Or.inr (Or.inr (Or.inr ⟨h1, h2, h3,
          by rw [if_neg h1, if_neg h2, if_neg (not_not_intro h3)]⟩))
      · exact Or.inr (Or.inr (Or.inl ⟨h1, h2, h3,
          by rw [if_neg h1, if_neg h2, if_pos h3]⟩))

/-- A unit can fire in a pass when all of its known includes are already
resolved, or when it has an include that is unknown to the whole input set. -/
def Trigger (databases : List (String × Database))
    (ordered : List (String × Database)) (db : Database) : Prop :=
  (∀ inc ∈ db.includes, splitextRoot inc ∈ keysOf ordered) ∨
  ¬ (∀ inc ∈ db.includes, splitextRoot inc ∈ keysOf databases)

theorem Trigger.mono {databases ordered ordered' : List (String × Database)} {db : Database}
    (hsub : keysOf ordered ⊆ keysOf ordered') (h : Trigger databases ordered db) :
    Trigger databases ordered' db := by
  rcases h with h | h
  · exact Or.inl fun inc hinc => hsub (h inc hinc)
  · exact Or.inr h

/-- During a pass the ordered list only grows, so prior keys stay present. -/
theorem foldl_resolveStep_keys_mono (databases : List (String × Database))
    (l : List (String × Database)) (acc) :
    keysOf acc.1 ⊆ keysOf (l.foldl (resolveStep databases) acc).1 := by
  obtain ⟨extra, h⟩ := foldl_resolveStep_append databases l acc
  intro x hx
  unfold keysOf at hx ⊢
  rw [h, List.map_append]
  exact List.mem_append_left _ hx

/-- If a triggered unit occurs in the remaining fold list (or is already
resolved), it is resolved by the end of the pass. -/
theorem foldl_resolves (databases : List (String × Database))
    (u : String) (du : Database) (ord₀ : List (String × Database))
    (htrig : Trigger databases ord₀ du) :
    ∀ (l : List (String × Database)) (acc : List (String × Database) × List (String × List String)),
      ((u, du) ∈ l ∨ u ∈ keysOf acc.1) → keysOf ord₀ ⊆ keysOf acc.1 →
      u ∈ keysOf (l.foldl (resolveStep databases) acc).1 := by
  intro l
  induction l with
  | nil =>
    intro acc hu hsub
    rcases hu with hu | hu
    · simp at hu
    · simpa using hu
  | cons e rest ih =>
    intro acc hu hsub
    have hkeysmono : keysOf acc.1 ⊆ keysOf (resolveStep databases acc e).1 := by
      rcases resolveStep_fst databases acc e with h | h
      · rw [h]; exact fun x hx => hx
      · intro x hx
        unfold keysOf at hx ⊢
        rw [h, List.map_append]
        exact List.mem_append_left _ hx
    have hsub' : keysOf ord₀ ⊆ keysOf (resolveStep databases acc e).1 :=
      fun x hx => hkeysmono (hsub hx)
    rw [List.foldl_cons]
    rcases hu with hu | hu
    · rcases List.mem_cons.mp hu with heq | hmem
      · -- the entry is reached now; the trigger makes it fire (or it is present)
        apply ih (resolveStep databases acc e) _ hsub'
        right
        rcases resolveStep_cases databases acc e with
          ⟨hin, heq'⟩ | ⟨_, _, heq'⟩ | ⟨_, _, _, heq'⟩ | ⟨hnin, hnall, hknown, heq'⟩
        · rw [heq']; rw [← heq] at hin; exact hin
        · rw [heq']
          show u ∈ keysOf (acc.1 ++ [e])
          unfold keysOf
          rw [List.map_append]
          apply List.mem_append_right
          simp [← heq]
        · rw [heq']
          show u ∈ keysOf (acc.1 ++ [e])
          unfold keysOf
          rw [List.map_append]
          apply List.mem_append_right
          simp [← heq]
        · -- both branches failed: contradicts the trigger
          exfalso
          rcases htrig with htrig | htrig
          · rw [← heq] at hnall
            exact hnall fun inc hinc => hsub (htrig inc hinc)
          · rw [← heq] at hknown
            exact htrig hknown
      · exact ih (resolveStep databases acc e) (Or.inl hmem) hsub'
    · exact ih (resolveStep databases acc e) (Or.inr (hkeysmono hu)) hsub'

/-- Structural invariant of the ordered list: keys are distinct and every
entry comes from the input mapping. -/
def PassInv (databases ord : List (String × Database)) : Prop :=
  (keysOf ord).Nodup ∧ ∀ e ∈ ord, e ∈ databases

/-- Ordering invariant: a unit all of whose includes are known appears after
all of them. -/
def PosInv (databases ord : List (String × Database)) : Prop :=
  ∀ i (hi : i < ord.length),
    (∀ inc ∈ (ord.get ⟨i, hi⟩).2.includes, splitextRoot inc ∈ keysOf databases) →
    ∀ inc ∈ (ord.get ⟨i, hi⟩).2.includes, splitextRoot inc ∈ keysOf (ord.take i)

theorem passInv_keys_subset {databases ord : List (String × Database)}
    (h : PassInv databases ord) : keysOf ord ⊆ keysOf databases := by
  intro x hx
  rcases List.mem_map.mp hx with ⟨e, he, hex⟩
  exact hex ▸ List.mem_map_of_mem Prod.fst (h.2 e he)

theorem passInv_append (databases acc : List (String × Database)) (e : String × Database)
    (he : e ∈ databases) (hnin : e.1 ∉ keysOf acc) (h : PassInv databases acc) :
    PassInv databases (acc ++ [e]) := by
  constructor
  · unfold keysOf
    rw [List.map_append, List.nodup_append]
    refine ⟨h.1, List.nodup_singleton _, ?_⟩
    intro x hx hx2
    simp only [List.map_singleton, List.mem_singleton] at hx2
    rw [hx2] at hx
    exact hnin hx
  · intro x hx
    rcases List.mem_append.mp hx with hx | hx
    · exact h.2 x hx
    · simp only [List.mem_singleton] at hx
      exact hx ▸ he

theorem posInv_append (databases acc : List (String × Database)) (e : String × Database)
    (hcond : (∀ inc ∈ e.2.includes, splitextRoot inc ∈ keysOf databases) →
      ∀ inc ∈ e.2.includes, splitextRoot inc ∈ keysOf acc)
    (h : PosInv databases acc) : PosInv databases (acc ++ [e]) := by
  intro i hi
  have hi' : i < acc.length + 1 := by simpa using hi
  by_cases hilt : i < acc.length
  · intro hknown inc hinc
    have hget : (acc ++ [e]).get ⟨i, hi⟩ = acc.get ⟨i, hilt⟩ := by
      simp [List.getElem_append_left, hilt]
    rw [hget] at hknown hinc
    rw [List.take_append_of_le_length (Nat.le_of_lt hilt)]
    exact h i hilt hknown inc hinc
  · have hieq : i = acc.length := by omega
    subst hieq
    intro hknown inc hinc
    have hget : (acc ++ [e]).get ⟨acc.length, hi⟩ = e := by simp
    rw [hget] at hknown hinc
    have htake : (acc ++ [e]).take acc.length = acc := by simp
    rw [htake]
    exact hcond hknown inc hinc

theorem foldl_resolveStep_inv (databases : List (String × Database)) :
    ∀ (l : List (String × Database)) (acc : List (String × Database) × List (String × List String)),
      (∀ e ∈ l, e ∈ databases) →
      PassInv databases acc.1 → PosInv databases acc.1 →
      PassInv databases (l.foldl (resolveStep databases) acc).1 ∧
        PosInv databases (l.foldl (resolveStep databases) acc).1 := by
  intro l
  induction l with
  | nil => intro acc _ h1 h2; exact ⟨h1, h2⟩
  | cons e rest ih =>
    intro acc hmem hpass hpos
    rw [List.foldl_cons]
    have he : e ∈ databases := hmem e (List.mem_cons_self e rest)
    have hstep : PassInv databases (resolveStep databases acc e).1 ∧
        PosInv databases (resolveStep databases acc e).1 := by
      rcases resolveStep_cases databases acc e with
        ⟨_, heq⟩ | ⟨hnin, hall, heq⟩ | ⟨hnin, _, hnknown, heq⟩ | ⟨_, _, _, heq⟩
      · rw [heq]; exact ⟨hpass, hpos⟩
      · rw [heq]
        exact ⟨passInv_append databases acc.1 e he hnin hpass,
          posInv_append databases acc.1 e (fun _ => hall) hpos⟩
      · rw [heq]
        exact ⟨passInv_append databases acc.1 e he hnin hpass,
          posInv_append databases acc.1 e (fun hk => absurd hk hnknown) hpos⟩
      · rw [heq]; exact ⟨hpass, hpos⟩
    exact ih (resolveStep databases acc e)
      (fun x hx => hmem x (List.mem_cons_of_mem e hx)) hstep.1 hstep.2

theorem resolvePass_inv (databases ordered : List (String × Database)) (warnings)
    (hpass : PassInv databases ordered) (hpos : PosInv databases ordered) :
    PassInv databases (resolvePass databases ordered warnings).1 ∧
      PosInv databases (resolvePass databases ordered warnings).1 :=
  foldl_resolveStep_inv databases databases (ordered, warnings) (fun _ hx => hx) hpass hpos

theorem foldl_resolveStep_passInv (databases : List (String × Database)) :
    ∀ (l : List (String × Database)) (acc : List (String × Database) × List (String × List String)),
      (∀ e ∈ l, e ∈ databases) → PassInv databases acc.1 →
      PassInv databases (l.foldl (resolveStep databases) acc).1 := by
  intro l
  induction l with
  | nil => intro acc _ h1; exact h1
  | cons e rest ih =>
    intro acc hmem hpass
    rw [List.foldl_cons]
    have he : e ∈ databases := hmem e (List.mem_cons_self e rest)
    have hstep : PassInv databases (resolveStep databases acc e).1 := by
      rcases resolveStep_cases databases acc e with
        ⟨_, heq⟩ | ⟨hnin, _, heq⟩ | ⟨hnin, _, _, heq⟩ | ⟨_, _, _, heq⟩
      · rw [heq]; exact hpass
      · rw [heq]; exact passInv_append databases acc.1 e he hnin hpass
      · rw [heq]; exact passInv_append databases acc.1 e he hnin hpass
      · rw [heq]; exact hpass
    exact ih (resolveStep databases acc e)
      (fun x hx => hmem x (List.mem_cons_of_mem e hx)) hstep

/-- Any nonempty list has an element minimizing a Nat-valued function. -/
theorem exists_rank_min (rank : String → Nat) :
    ∀ (l : List String), l ≠ [] → ∃ u ∈ l, ∀ v ∈ l, rank u ≤ rank v := by
  intro l
  induction l with
  | nil => intro h; exact absurd rfl h
  | cons a rest ih =>
    intro _
    rcases eq_or_ne rest [] with hrest | hrest
    · subst hrest
      refine ⟨a, List.mem_singleton_self a, ?_⟩
      intro v hv
      simp only [List.mem_singleton] at hv
      subst hv
      exact le_refl _
    · obtain ⟨u, hu, hmin⟩ := ih hrest
      by_cases hle : rank a ≤ rank u
      · refine ⟨a, List.mem_cons_self a rest, ?_⟩
        intro v hv
        rcases List.mem_cons.mp hv with h | h
        · subst h; exact le_refl _
        · exact le_trans hle (hmin v h)
      · refine ⟨u, List.mem_cons_of_mem a hu, ?_⟩
        intro v hv
        rcases List.mem_cons.mp hv with h | h
        · subst h; omega
        · exact hmin v h

/-- Edge of the include graph restricted to known units: known unit `a`
includes (extension stripped) a name `b` that is itself a key of the input
mapping. -/
def inSetEdge (databases : List (String × Database)) (a b : String) : Prop :=
  ∃ db, (a, db) ∈ databases ∧ b ∈ db.includes.map splitextRoot ∧ b ∈ keysOf databases

/-- Acyclicity of the include graph restricted to known units, expressed as a
ranking that strictly decreases along in-set include edges (equivalent to
acyclicity on a finite graph). -/
def AcyclicRank (databases : List (String × Database)) (rank : String → Nat) : Prop :=
  ∀ a b, inSetEdge databases a b → rank b < rank a

/-- Under acyclicity, a non-final pass strictly grows the ordered list. -/
theorem resolvePass_progress (databases : List (String × Database))
    (hnd : (keysOf databases).Nodup) (rank : String → Nat)
    (hrank : AcyclicRank databases rank)
    (ordered : List (String × Database)) (warnings : List (String × List String))
    (hpass : PassInv databases ordered)
    (hlt : ordered.length < databases.length) :
    ordered.length < (resolvePass databases ordered warnings).1.length := by
  set U := (keysOf databases).filter (fun n => decide (n ∉ keysOf ordered)) with hU
  have hUne : U ≠ [] := by
    intro hUe
    have hsub : keysOf databases ⊆ keysOf ordered := by
      intro x hx
      by_contra hnx
      have hxU : x ∈ U := by
        rw [hU]
        exact List.mem_filter.mpr ⟨hx, by simpa using hnx⟩
      rw [hUe] at hxU
      exact (List.not_mem_nil x) hxU
    have h1 : (keysOf databases).length ≤ (keysOf ordered).length :=
      (hnd.subperm hsub).length_le
    simp only [keysOf, List.length_map] at h1
    omega
  obtain ⟨u, huU, humin⟩ := exists_rank_min rank U hUne
  have hundb : u ∈ keysOf databases := (List.mem_filter.mp (hU ▸ huU)).1
  have hunord : u ∉ keysOf ordered := by
    have h2 := (List.mem_filter.mp (hU ▸ huU)).2
    simpa using h2
  obtain ⟨e, he, heu⟩ := List.mem_map.mp hundb
  have heu' : (u, e.2) ∈ databases := by rw [← heu]; exact he
  have htrig : Trigger databases ordered e.2 := by
    by_cases hknown : ∀ inc ∈ e.2.includes, splitextRoot inc ∈ keysOf databases
    · left
      intro inc hinc
      have hedge : inSetEdge databases u (splitextRoot inc) :=
        ⟨e.2, heu', List.mem_map_of_mem _ hinc, hknown inc hinc⟩
      by_contra hninc
      have hincU : splitextRoot inc ∈ U := by
        rw [hU]
        exact List.mem_filter.mpr ⟨hknown inc hinc, by simpa using hninc⟩
      have h3 := humin _ hincU
      have h4 := hrank u (splitextRoot inc) hedge
      omega
    · right; exact hknown
  have hmem : u ∈ keysOf (resolvePass databases ordered warnings).1 :=
    foldl_resolves databases u e.2 ordered htrig databases (ordered, warnings)
      (Or.inl heu') (fun _ hx => hx)
  obtain ⟨extra, hext⟩ := resolvePass_append databases ordered warnings
  have huextra : u ∈ keysOf extra := by
    rw [hext] at hmem
    unfold keysOf at hmem
    rw [List.map_append] at hmem
    rcases List.mem_append.mp hmem with h | h
    · exact absurd h hunord
    · exact h
  have hextne : extra ≠ [] := by
    intro hnil
    rw [hnil] at huextra
    simp [keysOf] at huextra
  have hpos : 0 < extra.length := List.length_pos.mpr hextne
  rw [hext, List.length_append]
  omega

/-- The fuel bound of the loop model is never reached: the Python `while` loop
always terminates (the pass grows the list or the loop raises). -/
theorem orderLoopF_ne_outOfFuel (databases : List (String × Database)) :
    ∀ (fuel : Nat) (ordered : List (String × Database)) (warnings),
      databases.length - ordered.length < fuel →
      orderLoopF databases fuel ordered warnings ≠ .outOfFuel := by
  intro fuel
  induction fuel with
  | zero => intro ordered warnings h; omega
  | succ fuel ih =>
    intro ordered warnings h
    by_cases hlt : ordered.length < databases.length
    · simp only [orderLoopF, if_pos hlt]
      by_cases hstall : (resolvePass databases ordered warnings).1.length = ordered.length
      · simp [hstall]
      · rw [if_neg hstall]
        have hle := resolvePass_length_le databases ordered warnings
        exact ih _ _ (by omega)
    · simp only [orderLoopF, if_neg hlt]
      intro hcontra
      exact OrderResult.noConfusion hcontra

/-- Under acyclicity the loop finishes with `ok`, preserving the invariants
and resolving every input unit. -/
theorem orderLoopF_ok (databases : List (String × Database))
    (hnd : (keysOf databases).Nodup) (rank : String → Nat)
    (hrank : AcyclicRank databases rank) :
    ∀ (fuel : Nat) (ordered : List (String × Database)) (warnings),
      databases.length - ordered.length < fuel →
      PassInv databases ordered → PosInv databases ordered →
      ∃ w out, orderLoopF databases fuel ordered warnings = .ok w out ∧
        PassInv databases out ∧ PosInv databases out ∧ out.length = databases.length := by
  intro fuel
  induction fuel with
  | zero => intro ordered warnings h _ _; omega
  | succ fuel ih =>
    intro ordered warnings h hpass hpos
    by_cases hlt : ordered.length < databases.length
    · simp only [orderLoopF, if_pos hlt]
      have hprog := resolvePass_progress databases hnd rank hrank ordered warnings hpass hlt
      have hstall : ¬ ((resolvePass databases ordered warnings).1.length = ordered.length) := by
        omega
      rw [if_neg hstall]
      have hinv := resolvePass_inv databases ordered warnings hpass hpos
      exact ih _ _ (by omega) hinv.1 hinv.2
    · simp only [orderLoopF, if_neg hlt]
      refine ⟨warnings, ordered, rfl, hpass, hpos, ?_⟩
      have h1 : (keysOf ordered).length ≤ (keysOf databases).length :=
        (hpass.1.subperm (passInv_keys_subset hpass)).length_le
      simp only [keysOf, List.length_map] at h1
      omega

/-- The ordering property exactly as claim C1 states it: EVERY unit appears
after all of its includes that are keys of the input mapping (no exception for
units that also have unknown includes). -/
def AfterKnownIncludes (databases out : List (String × Database)) : Prop :=
  ∀ i (hi : i < out.length), ∀ inc ∈ (out.get ⟨i, hi⟩).2.includes,
    splitextRoot inc ∈ keysOf databases →
    splitextRoot inc ∈ keysOf (out.take i)

/-- Input refuting C1 as stated: `A` includes known `B` and unknown `X`; the
include graph restricted to known units (a single edge `A -> B`) is acyclic. -/
def c1dbs : List (String × Database) := [("A", ⟨["B", "X"]⟩), ("B", ⟨[]⟩)]

/-- C1, counterexample.  On `c1dbs` the known-units include graph is acyclic,
yet `order_dbs_by_includes` resolves `A` in the very first pass (through the
unknown-include branch, warning logged) and returns `A` BEFORE its known
include `B` — so the output is not ordered the way the claim states. -/
theorem resolver_counterexample_unknown_include_order :
    AcyclicRank c1dbs (fun s => if s = "A" then 1 else 0) ∧
    order_dbs_by_includes c1dbs =
      .ok [("A", ["B", "X"])] [("A", ⟨["B", "X"]⟩), ("B", ⟨[]⟩)] ∧
    ¬ AfterKnownIncludes c1dbs [("A", ⟨["B", "X"]⟩), ("B", ⟨[]⟩)] := by
  refine ⟨?_, by decide, ?_⟩
  · intro a b hedge
    obtain ⟨db, hmem, hinc, hkey⟩ := hedge
    simp only [c1dbs, List.mem_cons, List.mem_singleton, List.not_mem_nil,
      or_false] at hmem
    rcases hmem with h | h
    · simp only [Prod.mk.injEq] at h
      obtain ⟨rfl, rfl⟩ := h
      simp only [List.map_cons, List.map_nil, List.mem_cons, List.mem_singleton,
        List.not_mem_nil, or_false] at hinc
      rcases hinc with rfl | rfl <;> decide
    · simp only [Prod.mk.injEq] at h
      obtain ⟨rfl, rfl⟩ := h
      simp at hinc
  · intro hcontra
    have h0 := hcontra 0 (by decide) "B" (by decide) (by decide)
    simp [keysOf] at h0

/-- C1 (amended).  For an input mapping with distinct names whose include
graph restricted to known (in-set) units is acyclic, `order_dbs_by_includes`
terminates without the fatal error, its output keys are a permutation of the
input keys, and every unit ALL of whose includes are keys of the input
appears after all of its includes.  (Units having an unknown include may be
resolved early, before some of their known includes — see the
counterexample.) -/
theorem resolver_acyclic_ok_perm_after_known
    (databases : List (String × Database)) (rank : String → Nat)
    (hnd : (keysOf databases).Nodup) (hrank : AcyclicRank databases rank) :
    ∃ w out, order_dbs_by_includes databases = .ok w out ∧
      (keysOf out).Perm (keysOf databases) ∧
      PosInv databases out := by
  obtain ⟨w, out, heq, hpass, hpos, hlen⟩ :=
    orderLoopF_ok databases hnd rank hrank (databases.length + 1) [] [] (by omega)
      ⟨List.nodup_nil, by simp⟩ (by intro i hi; simp at hi)
  refine ⟨w, out, heq, ?_, hpos⟩
  have hsubp := hpass.1.subperm (passInv_keys_subset hpass)
  apply hsubp.perm_of_length_le
  simp [keysOf, hlen]

/-- Witness for C1's theorem at a concrete acyclic input (mirrors the
repository test `test_order_dbs_by_includes_out_of_order`). -/
theorem resolver_acyclic_witness :
    ∃ w out,
      order_dbs_by_includes
        [("compound", ⟨["simple.template"]⟩), ("simple", ⟨[]⟩)] = .ok w out ∧
      (keysOf out).Perm
        (keysOf [("compound", (⟨["simple.template"]⟩ : Database)), ("simple", ⟨[]⟩)]) ∧
      PosInv [("compound", ⟨["simple.template"]⟩), ("simple", ⟨[]⟩)] out := by
  apply resolver_acyclic_ok_perm_after_known _ (fun s => if s = "compound" then 1 else 0)
  · decide
  · intro a b hedge
    obtain ⟨db, hmem, hinc, hkey⟩ := hedge
    simp only [List.mem_cons, List.mem_singleton, List.not_mem_nil, or_false] at hmem
    rcases hmem with h | h
    · simp only [Prod.mk.injEq] at h
      obtain ⟨rfl, rfl⟩ := h
      simp only [List.map_cons, List.map_nil, List.mem_cons, List.not_mem_nil,
        or_false] at hinc
      subst hinc
      decide
    · simp only [Prod.mk.injEq] at h
      obtain ⟨rfl, rfl⟩ := h
      simp at hinc

/-! ## Claim C2: fatal cycles and the unknown-include warning -/

/-- In a mapping with distinct keys, the value associated to a key is unique. -/
theorem assoc_value_unique : ∀ (databases : List (String × Database)),
    (keysOf databases).Nodup → ∀ {a : String} {b₁ b₂ : Database},
    (a, b₁) ∈ databases → (a, b₂) ∈ databases → b₁ = b₂ := by
  intro databases
  induction databases with
  | nil => intro _ a b₁ b₂ h1 _; simp at h1
  | cons e rest ih =>
    intro hnd a b₁ b₂ h1 h2
    have hnd2 : e.1 ∉ keysOf rest ∧ (keysOf rest).Nodup := by
      have h := hnd
      unfold keysOf at h ⊢
      rw [List.map_cons, List.nodup_cons] at h
      exact h
    have hnd' : (keysOf rest).Nodup := hnd2.2
    have hhead : e.1 ∉ keysOf rest := hnd2.1
    rcases List.mem_cons.mp h1 with h1 | h1 <;> rcases List.mem_cons.mp h2 with h2 | h2
    · rw [← h2] at h1
      exact congrArg Prod.snd h1
    · exfalso
      apply hhead
      have : a = e.1 := by rw [← h1]
      rw [← this]
      exact List.mem_map_of_mem Prod.fst h2
    · exfalso
      apply hhead
      have : a = e.1 := by rw [← h2]
      rw [← this]
      exact List.mem_map_of_mem Prod.fst h1
    · exact ih hnd' h1 h2

/-- A cycle of the include graph all of whose members are known units and all
of whose members' includes are known: successive members (cyclically) include
one another and no member has an unknown-include escape. -/
def IsConfinedCycle (databases : List (String × Database)) (cyc : List String) : Prop :=
  cyc ≠ [] ∧
  ∀ i (hi : i < cyc.length), ∃ db,
    (cyc.get ⟨i, hi⟩, db) ∈ databases ∧
    cyc.getD ((i + 1) % cyc.length) "" ∈ db.includes.map splitextRoot ∧
    ∀ inc ∈ db.includes, splitextRoot inc ∈ keysOf databases

/-- No member of a confined cycle is ever resolved by a pass. -/
theorem cycle_never_resolved (databases : List (String × Database))
    (hnd : (keysOf databases).Nodup) (cyc : List String)
    (hcyc : IsConfinedCycle databases cyc) :
    ∀ (l : List (String × Database)) (acc : List (String × Database) × List (String × List String)),
      (∀ e ∈ l, e ∈ databases) →
      (∀ v ∈ cyc, v ∉ keysOf acc.1) →
      ∀ v ∈ cyc, v ∉ keysOf (l.foldl (resolveStep databases) acc).1 := by
  intro l
  induction l with
  | nil => intro acc _ hinv; exact hinv
  | cons e rest ih =>
    intro acc hsub hinv
    rw [List.foldl_cons]
    apply ih _ (fun x hx => hsub x (List.mem_cons_of_mem e hx))
    -- the invariant is preserved by one step
    intro v hv
    have hvold := hinv v hv
    have he : e ∈ databases := hsub e (List.mem_cons_self e rest)
    rcases resolveStep_cases databases acc e with
      ⟨_, heq⟩ | ⟨_, hall, heq⟩ | ⟨_, _, hnknown, heq⟩ | ⟨_, _, _, heq⟩
    · rw [heq]; exact hvold
    · -- resolved because all includes are already ordered: impossible for a
      -- cycle member, whose cyclic successor is not ordered yet
      rw [heq]
      have hnecyc : e.1 ∉ cyc := by
        intro hecyc
        obtain ⟨i, hig⟩ := List.mem_iff_get.mp hecyc
        obtain ⟨db, hdb, hsucc, _⟩ := hcyc.2 i.1 i.2
        have hedb : (e.1, e.2) ∈ databases := he
        have hdb' : (e.1, db) ∈ databases := by
          rw [← hig]
          exact hdb
        have hdbeq : e.2 = db :=
          assoc_value_unique databases hnd hedb hdb'
        obtain ⟨inc, hinc, hrooteq⟩ := List.mem_map.mp hsucc
        have hsuccmem : cyc.getD ((i.1 + 1) % cyc.length) "" ∈ cyc := by
          have hlt : (i.1 + 1) % cyc.length < cyc.length :=
            Nat.mod_lt _ (List.length_pos.mpr hcyc.1)
          rw [List.getD_eq_get _ _ hlt]
          exact List.get_mem cyc _ hlt
        have hordered : cyc.getD ((i.1 + 1) % cyc.length) "" ∈ keysOf acc.1 := by
          rw [← hrooteq]
          apply hall
          rw [hdbeq]
          exact hinc
        exact hinv _ hsuccmem hordered
      unfold keysOf
      rw [List.map_append]
      intro hvnew
      rcases List.mem_append.mp hvnew with h | h
      · exact hvold h
      · simp only [List.map_singleton, List.mem_singleton] at h
        rw [h] at hv
        exact hnecyc hv
    · -- resolved through the unknown-include branch: impossible, all of a
      -- cycle member's includes are known
      rw [heq]
      have hnecyc : e.1 ∉ cyc := by
        intro hecyc
        obtain ⟨i, hig⟩ := List.mem_iff_get.mp hecyc
        obtain ⟨db, hdb, _, hknown⟩ := hcyc.2 i.1 i.2
        have hedb : (e.1, e.2) ∈ databases := he
        have hdb' : (e.1, db) ∈ databases := by
          rw [← hig]
          exact hdb
        have hdbeq : e.2 = db :=
          assoc_value_unique databases hnd hedb hdb'
        apply hnknown
        rw [hdbeq]
        exact hknown
      unfold keysOf
      rw [List.map_append]
      intro hvnew
      rcases List.mem_append.mp hvnew with h | h
      · exact hvold h
      · simp only [List.map_singleton, List.mem_singleton] at h
        rw [h] at hv
        exact hnecyc hv
    · rw [heq]; exact hvold

/-- Once `ordered` is full, every input key is resolved. -/
theorem keys_complete (databases ordered : List (String × Database))
    (hnd : (keysOf databases).Nodup) (hpass : PassInv databases ordered)
    (hge : ¬ ordered.length < databases.length) :
    ∀ x ∈ keysOf databases, x ∈ keysOf ordered := by
  have hsubp := hpass.1.subperm (passInv_keys_subset hpass)
  have hperm : (keysOf ordered).Perm (keysOf databases) := by
    apply hsubp.perm_of_length_le
    simp only [keysOf, List.length_map]
    omega
  intro x hx
  exact hperm.symm.subset hx

/-- With a confined cycle present, the loop can never answer `ok`. -/
theorem orderLoopF_cycle_not_ok (databases : List (String × Database))
    (hnd : (keysOf databases).Nodup) (cyc : List String)
    (hcyc : IsConfinedCycle databases cyc) :
    ∀ (fuel : Nat) (ordered : List (String × Database)) (warnings),
      PassInv databases ordered →
      (∀ v ∈ cyc, v ∉ keysOf ordered) →
      ∀ w out, orderLoopF databases fuel ordered warnings ≠ .ok w out := by
  have hc0 : ∃ (h0 : 0 < cyc.length), cyc.get ⟨0, h0⟩ ∈ keysOf databases := by
    have h0 : 0 < cyc.length := List.length_pos.mpr hcyc.1
    obtain ⟨db, hdb, _, _⟩ := hcyc.2 0 h0
    exact ⟨h0, List.mem_map_of_mem Prod.fst hdb⟩
  intro fuel
  induction fuel with
  | zero =>
    intro ordered warnings hpass hinv w out
    by_cases hlt : ordered.length < databases.length
    · simp [orderLoopF, hlt]
    · simp only [orderLoopF, if_neg hlt]
      intro _hcontra
      obtain ⟨h0, hmem⟩ := hc0
      exact hinv _ (List.get_mem cyc _ h0)
        (keys_complete databases ordered hnd hpass hlt _ hmem)
  | succ fuel ih =>
    intro ordered warnings hpass hinv w out
    by_cases hlt : ordered.length < databases.length
    · simp only [orderLoopF, if_pos hlt]
      by_cases hstall : (resolvePass databases ordered warnings).1.length = ordered.length
      · simp [hstall]
      · rw [if_neg hstall]
        have hinv' := cycle_never_resolved databases hnd cyc hcyc databases
          (ordered, warnings) (fun _ hx => hx) hinv
        have hpass' := foldl_resolveStep_passInv databases databases
          (ordered, warnings) (fun _ hx => hx) hpass
        exact ih _ _ hpass' hinv' w out
    · simp only [orderLoopF, if_neg hlt]
      intro _hcontra
      obtain ⟨h0, hmem⟩ := hc0
      exact hinv _ (List.get_mem cyc _ h0)
        (keys_complete databases ordered hnd hpass hlt _ hmem)

/-- Warning bookkeeping for a unit `u` having an unknown include: zero
warnings for `u` before it is resolved, exactly one (carrying its include
list) after. -/
def WarnInv (databases : List (String × Database)) (u : String) (du : Database)
    (acc : List (String × Database) × List (String × List String)) : Prop :=
  PassInv databases acc.1 ∧
  (u ∈ keysOf acc.1 →
    acc.2.countP (fun p => p.1 == u) = 1 ∧ (u, du.includes) ∈ acc.2) ∧
  (u ∉ keysOf acc.1 → acc.2.countP (fun p => p.1 == u) = 0)

theorem warnInv_step (databases : List (String × Database))
    (hnd : (keysOf databases).Nodup) (u : String) (du : Database) (inc₀ : String)
    (hu : (u, du) ∈ databases) (hinc : inc₀ ∈ du.includes)
    (hunk : splitextRoot inc₀ ∉ keysOf databases)
    (acc : List (String × Database) × List (String × List String))
    (e : String × Database) (he : e ∈ databases)
    (hW : WarnInv databases u du acc) :
    WarnInv databases u du (resolveStep databases acc e) := by
  obtain ⟨hpass, hyes, hno⟩ := hW
  rcases resolveStep_cases databases acc e with
    ⟨_, heq⟩ | ⟨hnin, hall, heq⟩ | ⟨hnin, _, _, heq⟩ | ⟨_, _, _, heq⟩
  · rw [heq]; exact ⟨hpass, hyes, hno⟩
  · -- resolved with all includes known and ordered: cannot be `u`
    rw [heq]
    have hneu : e.1 ≠ u := by
      intro heu
      have hedu : e.2 = du := by
        apply assoc_value_unique databases hnd (a := u)
        · rw [← heu]; exact he
        · exact hu
      have h1 := hall inc₀ (by rw [hedu]; exact hinc)
      exact hunk (passInv_keys_subset hpass h1)
    refine ⟨passInv_append databases acc.1 e he hnin hpass, ?_, ?_⟩
    · intro humem
      apply hyes
      unfold keysOf at humem ⊢
      rw [List.map_append] at humem
      rcases List.mem_append.mp humem with h | h
      · exact h
      · simp only [List.map_singleton, List.mem_singleton] at h
        exact absurd h.symm hneu
    · intro hunmem
      apply hno
      intro humem
      apply hunmem
      unfold keysOf at humem ⊢
      rw [List.map_append]
      exact List.mem_append_left _ humem
  · -- resolved through the unknown-include branch, one warning appended
    rw [heq]
    refine ⟨passInv_append databases acc.1 e he hnin hpass, ?_, ?_⟩
    · intro humem
      by_cases heu : e.1 = u
      · have hedu : e.2 = du := by
          apply assoc_value_unique databases hnd (a := u)
          · rw [← heu]; exact he
          · exact hu
        have hcount0 : acc.2.countP (fun p => p.1 == u) = 0 := hno (heu ▸ hnin)
        constructor
        · rw [List.countP_append, hcount0]
          simp [heu]
        · apply List.mem_append_right
          simp [heu, hedu]
      · have humem' : u ∈ keysOf acc.1 := by
          unfold keysOf at humem ⊢
          rw [List.map_append] at humem
          rcases List.mem_append.mp humem with h | h
          · exact h
          · simp only [List.map_singleton, List.mem_singleton] at h
            exact absurd h.symm heu
        obtain ⟨hc, hm⟩ := hyes humem'
        constructor
        · rw [List.countP_append, hc]
          simp [heu]
        · exact List.mem_append_left _ hm
    · intro hunmem
      have hnmem : u ∉ keysOf acc.1 := by
        intro hmem2
        apply hunmem
        unfold keysOf at hmem2 ⊢
        rw [List.map_append]
        exact List.mem_append_left _ hmem2
      have hneu : e.1 ≠ u := by
        intro heu
        apply hunmem
        unfold keysOf
        rw [List.map_append]
        apply List.mem_append_right
        simp [heu]
      rw [List.countP_append, hno hnmem]
      simp [hneu]
  · rw [heq]; exact ⟨hpass, hyes, hno⟩

theorem warnInv_fold (databases : List (String × Database))
    (hnd : (keysOf databases).Nodup) (u : String) (du : Database) (inc₀ : String)
    (hu : (u, du) ∈ databases) (hinc : inc₀ ∈ du.includes)
    (hunk : splitextRoot inc₀ ∉ keysOf databases) :
    ∀ (l : List (String × Database)) (acc),
      (∀ e ∈ l, e ∈ databases) → WarnInv databases u du acc →
      WarnInv databases u du (l.foldl (resolveStep databases) acc) := by
  intro l
  induction l with
  | nil => intro acc _ hW; exact hW
  | cons e rest ih =>
    intro acc hsub hW
    rw [List.foldl_cons]
    exact ih _ (fun x hx => hsub x (List.mem_cons_of_mem e hx))
      (warnInv_step databases hnd u du inc₀ hu hinc hunk acc e
        (hsub e (List.mem_cons_self e rest)) hW)

/-- The final warning list (whether the run ends `ok` or `circular`) holds
exactly one warning for a unit with an unknown include, carrying its include
list. -/
theorem orderLoopF_warn (databases : List (String × Database))
    (hnd : (keysOf databases).Nodup) (u : String) (du : Database) (inc₀ : String)
    (hu : (u, du) ∈ databases) (hinc : inc₀ ∈ du.includes)
    (hunk : splitextRoot inc₀ ∉ keysOf databases) :
    ∀ (fuel : Nat) (ordered : List (String × Database)) (warnings),
      WarnInv databases u du (ordered, warnings) →
      ∀ w, ((∃ out, orderLoopF databases fuel ordered warnings = .ok w out) ∨
            orderLoopF databases fuel ordered warnings = .circular w) →
      w.countP (fun p => p.1 == u) = 1 ∧ (u, du.includes) ∈ w := by
  have hukey : u ∈ keysOf databases := List.mem_map_of_mem Prod.fst hu
  intro fuel
  induction fuel with
  | zero =>
    intro ordered warnings hW w hres
    by_cases hlt : ordered.length < databases.length
    · simp only [orderLoopF, if_pos hlt] at hres
      rcases hres with ⟨out, h⟩ | h <;> exact absurd h (by intro h; cases h)
    · simp only [orderLoopF, if_neg hlt] at hres
      have humem : u ∈ keysOf ordered :=
        keys_complete databases ordered hnd hW.1 hlt u hukey
      rcases hres with ⟨out, h⟩ | h
      · obtain ⟨hw, _⟩ := by
          rw [OrderResult.ok.injEq] at h
          exact h
        rw [← hw]
        exact hW.2.1 humem
      · cases h
  | succ fuel ih =>
    intro ordered warnings hW w hres
    by_cases hlt : ordered.length < databases.length
    · simp only [orderLoopF, if_pos hlt] at hres
      have hW' : WarnInv databases u du (resolvePass databases ordered warnings) := by
        have h := warnInv_fold databases hnd u du inc₀ hu hinc hunk databases
          (ordered, warnings) (fun _ hx => hx) hW
        exact h
      by_cases hstall : (resolvePass databases ordered warnings).1.length = ordered.length
      · rw [if_pos hstall] at hres
        -- the run fails: the warning for u is in the circular payload, since u
        -- was resolved (by its ever-firing unknown-include trigger)
        have htrig : Trigger databases ordered du :=
          Or.inr (fun hall => hunk (hall inc₀ hinc))
        have humem : u ∈ keysOf (resolvePass databases ordered warnings).1 :=
          foldl_resolves databases u du ordered htrig databases (ordered, warnings)
            (Or.inl hu) (fun _ hx => hx)
        rcases hres with ⟨out, h⟩ | h
        · cases h
        · have hw : (resolvePass databases ordered warnings).2 = w := by
            rw [OrderResult.circular.injEq] at h
            exact h
          rw [← hw]
          exact hW'.2.1 humem
      · rw [if_neg hstall] at hres
        exact ih _ _ hW' w hres
    · simp only [orderLoopF, if_neg hlt] at hres
      have humem : u ∈ keysOf ordered :=
        keys_complete databases ordered hnd hW.1 hlt u hukey
      rcases hres with ⟨out, h⟩ | h
      · obtain ⟨hw, _⟩ := by
          rw [OrderResult.ok.injEq] at h
          exact h
        rw [← hw]
        exact hW.2.1 humem
      · cases h

/-- C2 (amended).  The resolver fails fatally exactly on stalled passes: an
include cycle confined to known units NONE of whose members has an unknown
include (including a self-including unit, the 1-cycle) makes
`order_dbs_by_includes` raise the fatal circular-includes error; and a unit
one of whose includes is not a key of the input set is resolved in the very
first pass without fatal error, with exactly one warning naming it and
carrying its include list (which contains the missing name).  (A cycle one of
whose members also has an unknown include does NOT fail — see the
counterexample.) -/
theorem resolver_fatal_and_warning_behavior :
    (∀ (databases : List (String × Database)) (cyc : List String),
      (keysOf databases).Nodup → IsConfinedCycle databases cyc →
      ∃ w, order_dbs_by_includes databases = .circular w) ∧
    (∀ (databases : List (String × Database)) (u : String) (du : Database) (inc₀ : String),
      (keysOf databases).Nodup → (u, du) ∈ databases → inc₀ ∈ du.includes →
      splitextRoot inc₀ ∉ keysOf databases →
      u ∈ keysOf (resolvePass databases [] []).1 ∧
      ∃ w, ((∃ out, order_dbs_by_includes databases = .ok w out) ∨
            order_dbs_by_includes databases = .circular w) ∧
        w.countP (fun p => p.1 == u) = 1 ∧ (u, du.includes) ∈ w) := by
  constructor
  · intro databases cyc hnd hcyc
    have hnotok := orderLoopF_cycle_not_ok databases hnd cyc hcyc
      (databases.length + 1) [] [] ⟨List.nodup_nil, by simp⟩
      (by intro v _ hv; simp [keysOf] at hv)
    have hnofuel := orderLoopF_ne_outOfFuel databases (databases.length + 1) [] []
      (by omega)
    cases hres : order_dbs_by_includes databases with
    | ok w out => exact absurd hres (hnotok w out)
    | circular w => exact ⟨w, rfl⟩
    | outOfFuel => exact absurd hres hnofuel
  · intro databases u du inc₀ hnd hu hinc hunk
    have htrig : Trigger databases [] du :=
      Or.inr (fun hall => hunk (hall inc₀ hinc))
    constructor
    · exact foldl_resolves databases u du [] htrig databases ([], [])
        (Or.inl hu) (fun _ hx => hx)
    · have hW0 : WarnInv databases u du ([], []) := by
        refine ⟨⟨List.nodup_nil, by simp⟩, ?_, ?_⟩
        · intro h; simp [keysOf] at h
        · intro _; rfl
      have hwarn := orderLoopF_warn databases hnd u du inc₀ hu hinc hunk
        (databases.length + 1) [] [] hW0
      have hnofuel := orderLoopF_ne_outOfFuel databases (databases.length + 1) [] []
        (by omega)
      cases hres : order_dbs_by_includes databases with
      | ok w out =>
        exact ⟨w, Or.inl ⟨out, rfl⟩, hwarn w (Or.inl ⟨out, hres⟩)⟩
      | circular w =>
        exact ⟨w, Or.inr rfl, hwarn w (Or.inr hres)⟩
      | outOfFuel => exact absurd hres hnofuel

/-- An include cycle confined to known units exactly as claim C2 states it:
successive members (cyclically) are known units including one another;
nothing is assumed about their remaining includes. -/
def IsKnownUnitCycle (databases : List (String × Database)) (cyc : List String) : Prop :=
  cyc ≠ [] ∧
  ∀ i (hi : i < cyc.length), ∃ db,
    (cyc.get ⟨i, hi⟩, db) ∈ databases ∧
    cyc.getD ((i + 1) % cyc.length) "" ∈ db.includes.map splitextRoot

/-- C2, counterexample.  `A` and `B` are known units forming the 2-cycle
`A -> B -> A`, yet the resolver succeeds with `ok` instead of raising the
fatal circular-includes error, because `A`'s additional unknown include `X`
lets the unknown-include branch resolve `A` (with a warning) and then `B`. -/
theorem resolver_cycle_with_unknown_escape_ok :
    IsKnownUnitCycle [("A", ⟨["B.db", "X"]⟩), ("B", ⟨["A"]⟩)] ["A", "B"] ∧
    order_dbs_by_includes [("A", ⟨["B.db", "X"]⟩), ("B", ⟨["A"]⟩)] =
      .ok [("A", ["B.db", "X"])] [("A", ⟨["B.db", "X"]⟩), ("B", ⟨["A"]⟩)] := by
  constructor
  · refine ⟨by decide, ?_⟩
    intro i hi
    have hi2 : i < 2 := by simpa using hi
    interval_cases i
    · exact ⟨⟨["B.db", "X"]⟩, by simp, by decide⟩
    · exact ⟨⟨["A"]⟩, by simp, by decide⟩
  · decide

/-- Witness for C2's theorem: a self-including unit (1-cycle, all includes
known) raises the fatal error; a unit including the unknown
`unknown.template` (mirrors `test_order_dbs_by_includes_unknown_include`)
resolves in the first pass with exactly one warning carrying its include
list. -/
theorem resolver_fatal_and_warning_witness :
    (∃ w, order_dbs_by_includes [("A", ⟨["A.db"]⟩)] = .circular w) ∧
    ("db1" ∈ keysOf (resolvePass [("db1", ⟨["unknown.template"]⟩)] [] []).1 ∧
      ∃ w, ((∃ out, order_dbs_by_includes [("db1", ⟨["unknown.template"]⟩)] = .ok w out) ∨
            order_dbs_by_includes [("db1", ⟨["unknown.template"]⟩)] = .circular w) ∧
        w.countP (fun p => p.1 == "db1") = 1 ∧
        ("db1", ["unknown.template"]) ∈ w) := by
  constructor
  · apply resolver_fatal_and_warning_behavior.1 _ ["A"] (by decide)
    refine ⟨by decide, ?_⟩
    intro i hi
    have hi1 : i < 1 := by simpa using hi
    interval_cases i
    exact ⟨⟨["A.db"]⟩, by simp, by decide, by decide⟩
  · exact resolver_fatal_and_warning_behavior.2 [("db1", ⟨["unknown.template"]⟩)]
      "db1" ⟨["unknown.template"]⟩ "unknown.template"
      (by decide) (by decide) (by decide) (by decide)

/-! ## Configuration (`config.py`) -/

inductive EmbedLevel where
  | none | single | all
deriving DecidableEq

inductive TitleBarFormat where
  | none | minimal | full
deriving DecidableEq

inductive MacroSetLevel where
  | none | screen | widget
deriving DecidableEq

/-- The phoebusgen widget classes the generator instantiates. -/
inductive WType where
  | comboBox | textUpdate | choiceButton | led | textEntry
  | label | rectangle | actionButton | embeddedDisplay
deriving DecidableEq

/-- Python class name (`type(widget).__name__`), used for counter-based
widget names. -/
def WType.typeName : WType → String
  | .comboBox => "ComboBox"
  | .textUpdate => "TextUpdate"
  | .choiceButton => "ChoiceButton"
  | .led => "LED"
  | .textEntry => "TextEntry"
  | .label => "Label"
  | .rectangle => "Rectangle"
  | .actionButton => "ActionButton"
  | .embeddedDisplay => "EmbeddedDisplay"

/-- First-match association lookup (Python dict access; keys are unique). -/
def alookup {α β : Type} [DecidableEq α] : List (α × β) → α → Option β
  | [], _ => Option.none
  | (k, v) :: rest, a => if k = a then some v else alookup rest a

/-- The `EPICSDB2BOBConfig` fields the layout engines read.  Stylistic fields
(palette, colors, label alignment, debug flag, search path) are consumed by no
geometry computation and are omitted. -/
structure EPICSDB2BOBConfig where
  embed : EmbedLevel
  macroSetLevel : MacroSetLevel
  title_bar_format : TitleBarFormat
  rtyp_to_widget_map : List (String × WType)
  readback_suffix : String
  font_size : Int
  default_widget_width : Int
  default_widget_height : Int
  max_screen_height : Int
  widget_offset : Int
  title_bar_heights : TitleBarFormat → Int
  widget_widths : List (WType × Int)

/-- The dataclass defaults of `EPICSDB2BOBConfig` (`DEFAULT_RTYP_TO_WIDGET_MAP`
included). -/
def defaultConfig : EPICSDB2BOBConfig where
  embed := .single
  macroSetLevel := .screen
  title_bar_format := .minimal
  rtyp_to_widget_map :=
    [("mbbo", .comboBox), ("mbbi", .textUpdate), ("bo", .choiceButton),
     ("bi", .led), ("ao", .textEntry), ("ai", .textUpdate),
     ("longout", .textEntry), ("longin", .textUpdate),
     ("stringout", .textEntry), ("stringin", .textUpdate)]
  readback_suffix := "_RBV"
  font_size := 16
  default_widget_width := 150
  default_widget_height := 20
  max_screen_height := 1200
  widget_offset := 10
  title_bar_heights := fun f => match f with
    | .none => 0
    | .minimal => 20
    | .full => 40
  widget_widths := [(.led, 20)]

/-! ## Grid cursor arithmetic (`bobfile_gen.py` lines 204-234) -/

def get_widget_start_positions (config : EPICSDB2BOBConfig) : Int × Int :=
  (config.widget_offset,
   config.widget_offset + config.title_bar_heights config.title_bar_format)

def get_next_x_position (current_x : Int) (col_width_widgets : Nat)
    (config : EPICSDB2BOBConfig) : Int :=
  current_x + (col_width_widgets : Int) *
    (config.default_widget_width + config.widget_offset)

def get_next_widget_position (current_x current_y : Int) (col_width_widgets : Nat)
    (config : EPICSDB2BOBConfig) : Int × Int :=
  let new_y := current_y + config.default_widget_height + config.widget_offset
  if new_y > config.max_screen_height - config.title_bar_heights config.title_bar_format
  then (get_next_x_position current_x col_width_widgets config,
        (get_widget_start_positions config).2)
  else (current_x, new_y)

/-- C3 (confirmed).  With the defaults (offset 10, element 150x20, max screen
height 1200, minimal title-bar height 20): the cursor starts at (10, 30);
while the advanced y stays within the usable ceiling 1200-20=1180 a group
advances the cursor down by 30 with x unchanged, placing consecutive
identical-size (2-element) groups at (10,30),(10,60),(10,90),…; and once the
next y would exceed 1180 the cursor wraps to the next column at
x = 10 + 2*(150+10) = 330 with y reset to 30. -/
theorem grid_wrap_arithmetic :
    get_widget_start_positions defaultConfig = (10, 30) ∧
    (∀ x y : Int, y + 30 ≤ 1180 →
      get_next_widget_position x y 2 defaultConfig = (x, y + 30)) ∧
    (∀ y : Int, y + 30 > 1180 →
      get_next_widget_position 10 y 2 defaultConfig = (330, 30)) := by
  refine ⟨rfl, ?_, ?_⟩
  · intro x y h
    simp only [get_next_widget_position, defaultConfig]
    rw [if_neg (by omega)]
    simp only [Prod.mk.injEq]
    exact ⟨trivial, by omega⟩
  · intro y h
    simp only [get_next_widget_position, get_next_x_position,
      get_widget_start_positions, defaultConfig]
    rw [if_pos (by omega)]
    norm_num

/-- Witness for C3 at concrete cursor values: the first three grid rows and
the wrap step (1170 is the y of the 39th row; 1170 + 30 exceeds 1180). -/
theorem grid_wrap_arithmetic_witness :
    get_widget_start_positions defaultConfig = (10, 30) ∧
    get_next_widget_position 10 30 2 defaultConfig = (10, 60) ∧
    get_next_widget_position 10 60 2 defaultConfig = (10, 90) ∧
    get_next_widget_position 10 1170 2 defaultConfig = (330, 30) := by
  refine ⟨grid_wrap_arithmetic.1, ?_, ?_, ?_⟩
  · exact grid_wrap_arithmetic.2.1 10 30 (by norm_num)
  · exact grid_wrap_arithmetic.2.1 10 60 (by norm_num)
  · exact grid_wrap_arithmetic.2.2 1170 (by norm_num)

/-! ## Rectangle packer (`pack_close_to_square`, `utils.py` lines 112-152) -/

/-- One box-growth step (`utils.py` lines 137-140; increment is the local
constant 100): grow the height while it is strictly smaller than the width
and stays within `max_height`, otherwise grow the width. -/
def growBox (width height maxHeight : Int) : Int × Int :=
  if height < width ∧ height + 100 ≤ maxHeight then (width, height + 100)
  else (width + 100, height)

/-- Shelf placement: rectangles go left-to-right in the current row starting
at `(curX, curY)` (the row is `rowH` tall so far); a rectangle that does not
fit opens a new row; a rectangle that fits in neither place fails the box. -/
def shelfPlace : List (Int × Int) → Int → Int → Int → Int → Int → Option (List (Int × Int))
  | [], _, _, _, _, _ => some []
  | (w, h) :: rest, width, height, curX, curY, rowH =>
    if curX + w ≤ width ∧ curY + h ≤ height then
      (shelfPlace rest width height (curX + w) curY (max rowH h)).map
        (fun ps => (curX, curY) :: ps)
    else if curX ≠ 0 ∧ w ≤ width ∧ curY + rowH + h ≤ height then
      (shelfPlace rest width height w (curY + rowH) h).map
        (fun ps => (0, curY + rowH) :: ps)
    else none

/-- Modelled from the spec: `rpack.pack`, the external rectangle-packing
solver called at `utils.py` line 141 ("attempts an exact rectangle-packing
solve at the current box size", spec §4.3), is a third-party library and not
part of this repository.  It is modelled as a sound shelf-packing solver
returning one `(x, y)` per input rectangle in input order; `none` models
`rpack.PackingImpossibleError`.  Any sound solver must fail whenever a single
rectangle is taller or wider than the box, which is all the counterexample
relies on. -/
def rpackPack (sizes : List (Int × Int)) (width height : Int) :
    Option (List (Int × Int)) :=
  shelfPlace sizes width height 0 0 0

/-- Outcome of `pack_close_to_square`: the positions, or the fatal
`RuntimeError("Unable to pack rects within max height.")`. -/
inductive PackResult where
  | ok (positions : List (Int × Int))
  | fatal
deriving DecidableEq

/-- The `while True` retry loop of `pack_close_to_square`: each iteration
first grows the box, then attempts a solve.  `fuel` is the number of further
failures allowed after the current one; the Python `iteration` counter
permits 1001 failed attempts in total before the fatal error. -/
def packLoop (padded : List (Int × Int)) (maxHeight : Int) :
    Nat → Int → Int → PackResult
  | fuel, width, height =>
    let wh := growBox width height maxHeight
    match rpackPack padded wh.1 wh.2 with
    | some ps => .ok ps
    | Option.none =>
      match fuel with
      | 0 => .fatal
      | f + 1 => packLoop padded maxHeight f wh.1 wh.2

/-- `pack_close_to_square` (`utils.py`): pad every rectangle, then grow a
100x100 box and retry. -/
def pack_close_to_square (rectangle_sizes : List (Int × Int))
    (maxHeight padding : Int) : PackResult :=
  let padded := rectangle_sizes.map (fun wh => (wh.1 + padding, wh.2 + padding))
  packLoop padded maxHeight 1000 100 100

/-- C5, counterexample.  At the first growth step the box is 100x100 — height
equal to width — and height + increment ≤ max_height holds (200 ≤ 1200), so
the claim prescribes growing the height to (100, 200); the code's strict
`height < width` test grows the WIDTH instead. -/
theorem grow_equal_dims_grows_width :
    growBox 100 100 1200 = (200, 100) ∧ growBox 100 100 1200 ≠ (100, 200) := by
  decide

/-- C5 (amended).  On every growth step (including the one before the first
solve attempt) the box grows its height by the increment exactly when height
is STRICTLY smaller than width and height + increment ≤ max_height, and
otherwise grows its width.  In particular, from the initial 100x100 square
box the first step grows the width whatever max_height is, so the first
solve attempt of `pack_close_to_square` happens at a 200x100 box. -/
theorem grow_rule_strict :
    (∀ width height maxHeight : Int, height < width → height + 100 ≤ maxHeight →
      growBox width height maxHeight = (width, height + 100)) ∧
    (∀ width height maxHeight : Int, ¬ (height < width ∧ height + 100 ≤ maxHeight) →
      growBox width height maxHeight = (width + 100, height)) ∧
    (∀ (rects : List (Int × Int)) (maxHeight padding : Int) (ps : List (Int × Int)),
      rpackPack (rects.map (fun wh => (wh.1 + padding, wh.2 + padding))) 200 100 = some ps →
      pack_close_to_square rects maxHeight padding = .ok ps) := by
  refine ⟨?_, ?_, ?_⟩
  · intro width height maxHeight h1 h2
    unfold growBox
    rw [if_pos ⟨h1, h2⟩]
  · intro width height maxHeight hn
    unfold growBox
    rw [if_neg hn]
  · intro rects maxHeight padding ps hsolve
    have hg : growBox 100 100 maxHeight = (200, 100) := by
      unfold growBox
      rw [if_neg (fun hc => absurd hc.1 (lt_irrefl 100))]
      norm_num
    simp only [pack_close_to_square, packLoop, hg, hsolve]

/-- Witness for C5's theorem: a strict-decrease step grows height, the
equal-dimensions step grows width, and a single small rectangle is packed at
the very first 200x100 attempt. -/
theorem grow_rule_strict_witness :
    growBox 200 100 1200 = (200, 200) ∧
    growBox 100 100 1200 = (200, 100) ∧
    pack_close_to_square [(50, 50)] 1000 10 = .ok [(0, 0)] := by
  refine ⟨grow_rule_strict.1 200 100 1200 (by norm_num) (by norm_num),
    grow_rule_strict.2.1 100 100 1200 (by omega),
    grow_rule_strict.2.2 [(50, 50)] 1000 10 [(0, 0)] (by decide)⟩

/-- A box shorter than a rectangle makes any sound solver — the shelf model
included — fail. -/
theorem shelf_tall_fails (w h width height : Int) (hh : height < h) :
    shelfPlace [(w, h)] width height 0 0 0 = none := by
  unfold shelfPlace
  rw [if_neg (fun hc => absurd hc.2 (by omega)),
    if_neg (fun hc => hc.1 rfl)]

/-- On the C4 counterexample input the box height never grows (the increment
would overshoot max_height = 150), so every attempt fails. -/
theorem packLoop_tall_fatal :
    ∀ (fuel : Nat) (width height : Int), 51 ≤ height → height ≤ 139 →
      packLoop [(10, 140)] 150 fuel width height = .fatal := by
  intro fuel
  induction fuel with
  | zero =>
    intro width height h1 h2
    have hg : growBox width height 150 = (width + 100, height) := by
      unfold growBox
      rw [if_neg (fun hc => absurd hc.2 (by omega))]
    have hs : rpackPack [(10, 140)] (width + 100) height = none :=
      shelf_tall_fails 10 140 (width + 100) height (by omega)
    simp only [packLoop, hg, hs]
  | succ f ih =>
    intro width height h1 h2
    have hg : growBox width height 150 = (width + 100, height) := by
      unfold growBox
      rw [if_neg (fun hc => absurd hc.2 (by omega))]
    have hs : rpackPack [(10, 140)] (width + 100) height = none :=
      shelf_tall_fails 10 140 (width + 100) height (by omega)
    simp only [packLoop, hg, hs]
    exact ih (width + 100) height h1 h2

/-- C4, counterexample.  The single rectangle's height 140 is below
max_height = 150, yet `pack_close_to_square` exhausts its 1001 bounded
retries and raises the fatal packing-exhausted error: the reachable box
heights are 100 (growing to 200 would exceed 150), so the rectangle never
fits. -/
theorem pack_tall_rect_fatal :
    (140 : Int) < 150 ∧ pack_close_to_square [(10, 140)] 150 0 = .fatal := by
  constructor
  · norm_num
  · show packLoop ([(10, 140)].map (fun wh => (wh.1 + 0, wh.2 + 0))) 150 1000 100 100 = .fatal
    have hmap : [((10 : Int), (140 : Int))].map (fun wh => (wh.1 + 0, wh.2 + 0)) = [(10, 140)] := by
      decide
    rw [hmap]
    exact packLoop_tall_fatal 1000 100 100 (by norm_num) (by norm_num)

/-- Two placed rectangles (position paired with size) do not overlap. -/
def RectDisjoint (a b : (Int × Int) × (Int × Int)) : Prop :=
  ¬ (a.1.1 < b.1.1 + b.2.1 ∧ b.1.1 < a.1.1 + a.2.1 ∧
     a.1.2 < b.1.2 + b.2.2 ∧ b.1.2 < a.1.2 + a.2.2)

/-- A placed rectangle is in the current row at or right of the cursor, or in
a strictly lower row. -/
def RowOrBelow (cx cy rh : Int) (p : (Int × Int) × (Int × Int)) : Prop :=
  (p.1.2 = cy ∧ cx ≤ p.1.1) ∨ cy + rh ≤ p.1.2

theorem rowOrBelow_weaken {cx cy rh rh2 : Int} {w : Int}
    (hw : 0 ≤ w) (hrh : rh ≤ rh2)
    {p : (Int × Int) × (Int × Int)} (hp : RowOrBelow (cx + w) cy rh2 p) :
    RowOrBelow cx cy rh p := by
  rcases hp with ⟨hy, hx⟩ | hbelow
  · exact Or.inl ⟨hy, by omega⟩
  · right
    omega

/-- Soundness of the shelf solver: one position per rectangle in order, all
placed within vertical extent [0, height], pairwise non-overlapping. -/
theorem shelfPlace_sound :
    ∀ (sizes : List (Int × Int)) (width height curX curY rowH : Int)
      (ps : List (Int × Int)),
      shelfPlace sizes width height curX curY rowH = some ps →
      (∀ wh ∈ sizes, 0 ≤ wh.1 ∧ 0 ≤ wh.2) →
      0 ≤ curY → 0 ≤ rowH →
      ps.length = sizes.length ∧
      (∀ p ∈ ps.zip sizes, RowOrBelow curX curY rowH p ∧
        0 ≤ p.1.2 ∧ p.1.2 + p.2.2 ≤ height) ∧
      (ps.zip sizes).Pairwise RectDisjoint := by
  intro sizes
  induction sizes with
  | nil =>
    intro width height curX curY rowH ps heq _ _ _
    simp only [shelfPlace, Option.some.injEq] at heq
    subst heq
    exact ⟨rfl, by simp, by simp⟩
  | cons wh rest ih =>
    intro width height curX curY rowH ps heq hsz hcy hrh
    obtain ⟨w, h⟩ := wh
    have hwh : 0 ≤ w ∧ 0 ≤ h := hsz (w, h) (List.mem_cons_self _ _)
    have hszrest : ∀ q ∈ rest, 0 ≤ q.1 ∧ 0 ≤ q.2 :=
      fun q hq => hsz q (List.mem_cons_of_mem _ hq)
    rw [shelfPlace] at heq
    by_cases hc1 : curX + w ≤ width ∧ curY + h ≤ height
    · rw [if_pos hc1] at heq
      obtain ⟨ps', hps', hcons⟩ := Option.map_eq_some'.mp heq
      subst hcons
      obtain ⟨hlen, hrb, hpw⟩ := ih width height (curX + w) curY (max rowH h) ps'
        hps' hszrest hcy (le_trans hrh (le_max_left _ _))
      refine ⟨by simp [hlen], ?_, ?_⟩
      · intro p hp
        rcases List.mem_cons.mp (by simpa using hp) with hph | hpt
        · subst hph
          exact ⟨Or.inl ⟨rfl, le_refl _⟩, hcy, hc1.2⟩
        · obtain ⟨h1, h2, h3⟩ := hrb p hpt
          exact ⟨rowOrBelow_weaken hwh.1 (le_max_left rowH h) h1, h2, h3⟩
      · rw [List.zip_cons_cons]
        refine List.Pairwise.cons ?_ hpw
        intro p hp
        obtain ⟨h1, _, _⟩ := hrb p hp
        unfold RectDisjoint
        intro hov
        obtain ⟨o1, o2, o3, o4⟩ := hov
        simp only at o1 o2 o3 o4
        rcases h1 with ⟨hy, hx⟩ | hbelow
        · omega
        · have hmax : h ≤ max rowH h := le_max_right rowH h
          omega
    · rw [if_neg hc1] at heq
      by_cases hc2 : curX ≠ 0 ∧ w ≤ width ∧ curY + rowH + h ≤ height
      · rw [if_pos hc2] at heq
        obtain ⟨ps', hps', hcons⟩ := Option.map_eq_some'.mp heq
        subst hcons
        obtain ⟨hlen, hrb, hpw⟩ := ih width height w (curY + rowH) h ps'
          hps' hszrest (by omega) hwh.2
        refine ⟨by simp [hlen], ?_, ?_⟩
        · intro p hp
          rcases List.mem_cons.mp (by simpa using hp) with hph | hpt
          · subst hph
            refine ⟨Or.inr (le_refl _), show (0 : Int) ≤ curY + rowH by omega,
              show curY + rowH + h ≤ height from hc2.2.2⟩
          · obtain ⟨h1, h2, h3⟩ := hrb p hpt
            refine ⟨?_, h2, h3⟩
            rcases h1 with ⟨hy, _⟩ | hbelow
            · exact Or.inr (le_of_eq hy.symm)
            · exact Or.inr (by omega)
        · rw [List.zip_cons_cons]
          refine List.Pairwise.cons ?_ hpw
          intro p hp
          obtain ⟨h1, _, _⟩ := hrb p hp
          unfold RectDisjoint
          intro hov
          obtain ⟨o1, o2, o3, o4⟩ := hov
          simp only at o1 o2 o3 o4
          rcases h1 with ⟨hy, hx⟩ | hbelow
          · omega
          · omega
      · rw [if_neg hc2] at heq
        exact absurd heq (by simp)

/-- The pack loop keeps the box height within `max 100 maxHeight`; on success
the shelf guarantees transfer to the whole call. -/
theorem packLoop_sound (padded : List (Int × Int)) (maxHeight : Int)
    (hsz : ∀ wh ∈ padded, 0 ≤ wh.1 ∧ 0 ≤ wh.2) (hmax : (100 : Int) ≤ maxHeight) :
    ∀ (fuel : Nat) (width height : Int) (ps : List (Int × Int)),
      height ≤ maxHeight →
      packLoop padded maxHeight fuel width height = .ok ps →
      ps.length = padded.length ∧
      (∀ p ∈ ps.zip padded, 0 ≤ p.1.2 ∧ p.1.2 + p.2.2 ≤ maxHeight) ∧
      (ps.zip padded).Pairwise RectDisjoint := by
  intro fuel
  induction fuel with
  | zero =>
    intro width height ps hh heq
    rw [packLoop] at heq
    set wh := growBox width height maxHeight with hwh
    have hh2 : wh.2 ≤ maxHeight := by
      rw [hwh]
      unfold growBox
      split
      · next hcond => simp only; omega
      · simp only; omega
    cases hsolve : rpackPack padded wh.1 wh.2 with
    | none => rw [hsolve] at heq; exact absurd heq (by simp)
    | some qs =>
      rw [hsolve] at heq
      simp only [PackResult.ok.injEq] at heq
      subst heq
      obtain ⟨hlen, hbounds, hpw⟩ := shelfPlace_sound padded wh.1 wh.2 0 0 0 qs
        hsolve hsz (le_refl 0) (le_refl 0)
      exact ⟨hlen, fun p hp => ⟨(hbounds p hp).2.1, le_trans (hbounds p hp).2.2 hh2⟩, hpw⟩
  | succ f ih =>
    intro width height ps hh heq
    rw [packLoop] at heq
    set wh := growBox width height maxHeight with hwh
    have hh2 : wh.2 ≤ maxHeight := by
      rw [hwh]
      unfold growBox
      split
      · next hcond => simp only; omega
      · simp only; omega
    cases hsolve : rpackPack padded wh.1 wh.2 with
    | none =>
      rw [hsolve] at heq
      exact ih wh.1 wh.2 ps hh2 heq
    | some qs =>
      rw [hsolve] at heq
      simp only [PackResult.ok.injEq] at heq
      subst heq
      obtain ⟨hlen, hbounds, hpw⟩ := shelfPlace_sound padded wh.1 wh.2 0 0 0 qs
        hsolve hsz (le_refl 0) (le_refl 0)
      exact ⟨hlen, fun p hp => ⟨(hbounds p hp).2.1, le_trans (hbounds p hp).2.2 hh2⟩, hpw⟩

/-- C4 (amended).  `pack_close_to_square` always terminates (the retry loop
is bounded); success is NOT guaranteed merely because each rectangle is
shorter than max_height (counterexample: reachable box heights are stuck at
100 when 200 would overshoot); but whenever it does return positions — for
nonnegative sizes and padding, and max_height ≥ 100 — it returns exactly one
position per input rectangle, aligned with input order, no two padded
rectangles overlap, and every padded rectangle lies within vertical extent
[0, max_height], so the packed bounding-box height does not exceed
max_height. -/
theorem pack_success_sound (rects : List (Int × Int)) (maxHeight padding : Int)
    (ps : List (Int × Int))
    (hsz : ∀ wh ∈ rects, 0 ≤ wh.1 ∧ 0 ≤ wh.2) (hpad : 0 ≤ padding)
    (hmax : (100 : Int) ≤ maxHeight)
    (hok : pack_close_to_square rects maxHeight padding = .ok ps) :
    ps.length = rects.length ∧
    (∀ p ∈ ps.zip (rects.map (fun wh => (wh.1 + padding, wh.2 + padding))),
      0 ≤ p.1.2 ∧ p.1.2 + p.2.2 ≤ maxHeight) ∧
    (ps.zip (rects.map (fun wh => (wh.1 + padding, wh.2 + padding)))).Pairwise RectDisjoint := by
  have hsz' : ∀ wh ∈ rects.map (fun wh => (wh.1 + padding, wh.2 + padding)),
      0 ≤ wh.1 ∧ 0 ≤ wh.2 := by
    intro wh hwh
    obtain ⟨q, hq, rfl⟩ := List.mem_map.mp hwh
    obtain ⟨h1, h2⟩ := hsz q hq
    constructor <;> simp only <;> omega
  have hok' : packLoop (rects.map (fun wh => (wh.1 + padding, wh.2 + padding)))
      maxHeight 1000 100 100 = .ok ps := hok
  obtain ⟨hlen, hbounds, hpw⟩ := packLoop_sound
    (rects.map (fun wh => (wh.1 + padding, wh.2 + padding))) maxHeight hsz' hmax
    1000 100 100 ps (by omega) hok'
  exact ⟨by simpa using hlen, hbounds, hpw⟩

/-- Witness for C4's theorem at a concrete packable input. -/
theorem pack_success_sound_witness :
    pack_close_to_square [(50, 50)] 1000 10 = .ok [(0, 0)] ∧
    ([((0 : Int), (0 : Int))].length = [((50 : Int), (50 : Int))].length ∧
      (∀ p ∈ [((0 : Int), (0 : Int))].zip
          ([((50 : Int), (50 : Int))].map (fun wh => (wh.1 + 10, wh.2 + 10))),
        0 ≤ p.1.2 ∧ p.1.2 + p.2.2 ≤ 1000) ∧
      ([((0 : Int), (0 : Int))].zip
          ([((50 : Int), (50 : Int))].map (fun wh => (wh.1 + 10, wh.2 + 10)))).Pairwise
        RectDisjoint) :=
  ⟨by decide,
   pack_success_sound [(50, 50)] 1000 10 [(0, 0)] (by decide) (by norm_num)
     (by norm_num) (by decide)⟩

/-! ## Grid layout engine (`generate_bobfile_for_db`, `bobfile_gen.py`) -/

/-- The part of an `epicsdbtools.Record` the generator consumes. -/
structure Record where
  name : String
  rtyp : String
  fields : List (String × String)
deriving DecidableEq

/-- A generated widget: the phoebusgen constructor name argument (a
`short_uuid()` result, later overwritten by the per-kind counter name in the
grid engine), widget class, text payload (label text or PV name), and
geometry. -/
structure GridWidget where
  name : String
  wtype : WType
  text : String
  x : Int
  y : Int
  w : Int
  h : Int
deriving DecidableEq

/-- `record.name.rsplit(")")[-1]`. -/
def rsplitParen (s : String) : String := (s.splitOn ")").getLastD s

/-- `add_label_for_record` (`bobfile_gen.py` lines 67-85; color, font and
alignment setters carry no geometry). -/
def add_label_for_record (u : Nat → String) (k : Nat) (record : Record)
    (start_x start_y : Int) (config : EPICSDB2BOBConfig) : GridWidget :=
  { name := u k
    wtype := .label
    text := (alookup record.fields "DESC").getD (rsplitParen record.name)
    x := start_x
    y := start_y
    w := config.default_widget_width
    h := config.default_widget_height }

/-- PV name after the macro rewriting of `add_widget_for_record` (lines
109-112): unless macros are set at widget level, each macro VALUE occurring
in the record name is replaced by the `$(NAME)` reference. -/
def pvNameFor (record : Record) (macros : List (String × String))
    (config : EPICSDB2BOBConfig) : String :=
  if config.macroSetLevel ≠ .widget then
    macros.foldl (fun nm m => nm.replace m.2 ("$(" ++ m.1 ++ ")")) record.name
  else record.name

/-- The primary (non-label) widget built at lines 114-121. -/
def primaryWidgetFor (u : Nat → String) (k : Nat) (record : Record)
    (widget_type : WType) (x y : Int) (macros : List (String × String))
    (config : EPICSDB2BOBConfig) : GridWidget :=
  { name := u k
    wtype := widget_type
    text := pvNameFor record macros config
    x := x
    y := y
    w := (alookup config.widget_widths widget_type).getD config.default_widget_width
    h := config.default_widget_height }

/-- `add_widget_for_record` (lines 88-150): optional label, primary widget,
optional readback widget, each at increasing x by the previous element's
width plus the offset; the recursive readback call has `with_label = False`
and no further readback, i.e. it contributes exactly the readback's primary
widget.  `none` models the KeyError on an unmapped record type (callers check
the mapping first).  Returns the widgets and the next fresh-uuid index. -/
def add_widget_for_record (u : Nat → String) (k : Nat) (record : Record)
    (start_x start_y : Int) (macros : List (String × String))
    (config : EPICSDB2BOBConfig) (readback_record : Option Record)
    (with_label : Bool) : Option (List GridWidget × Nat) :=
  match alookup config.rtyp_to_widget_map record.rtyp with
  | Option.none => Option.none
  | some widget_type =>
    let labelPart : List GridWidget :=
      if with_label then [add_label_for_record u k record start_x start_y config]
      else []
    let k1 := if with_label then k + 1 else k
    let current_x := if with_label then
        start_x + ((alookup config.widget_widths .label).getD config.default_widget_width
          + config.widget_offset)
      else start_x
    let widget := primaryWidgetFor u k1 record widget_type current_x start_y macros config
    let current_x2 := current_x +
      ((alookup config.widget_widths widget_type).getD config.default_widget_width
        + config.widget_offset)
    match readback_record with
    | Option.none => some (labelPart ++ [widget], k1 + 1)
    | some rb =>
      match alookup config.rtyp_to_widget_map rb.rtyp with
      | Option.none => Option.none
      | some rb_type =>
        some (labelPart ++ [widget] ++
          [primaryWidgetFor u (k1 + 1) rb rb_type current_x2 start_y macros config],
          k1 + 2)

/-- Python dict write `d[key] = value`: overwrite in place or append. -/
def assocSet {α β : Type} [DecidableEq α] : List (α × β) → α → β → List (α × β)
  | [], a, b => [(a, b)]
  | (x, y) :: rest, a, b =>
    if x = a then (a, b) :: rest else (x, y) :: assocSet rest a b

/-- `widget_counters[type] = widget_counters.get(type, 0) + 1`, returning the
new counter value. -/
def bumpCounter (counters : List (WType × Nat)) (t : WType) :
    List (WType × Nat) × Nat :=
  let n := (alookup counters t).getD 0 + 1
  (assocSet counters t n, n)

/-- The renaming loop over `widgets_for_record` (lines 295-306):
`widget.name(f"{type(widget).__name__}_{counter}")`, then add to screen. -/
def renameAll (counters : List (WType × Nat)) (ws : List GridWidget) :
    List (WType × Nat) × List GridWidget :=
  ws.foldl
    (fun acc wdg =>
      let bc := bumpCounter acc.1 wdg.wtype
      (bc.1, acc.2 ++ [{ wdg with name := wdg.wtype.typeName ++ "_" ++ toString bc.2 }]))
    (counters, [])

/-- `add_dividing_line` (lines 237-246). -/
def add_dividing_line (u : Nat → String) (k : Nat) (x_position y_position : Int)
    (config : EPICSDB2BOBConfig) : GridWidget :=
  { name := u k
    wtype := .rectangle
    text := ""
    x := x_position
    y := y_position
    w := 2
    h := config.max_screen_height - y_position }

/-- The readback lookup of lines 277-282: the record named
`record.name + readback_suffix`, accepted only when its own type is mapped. -/
def readbackFor (database : List Record) (record : Record)
    (config : EPICSDB2BOBConfig) : Option Record :=
  match database.find? (fun r => r.name == record.name ++ config.readback_suffix) with
  | some rb =>
    if (alookup config.rtyp_to_widget_map rb.rtyp).isSome then some rb
    else Option.none
  | Option.none => Option.none

/-- The mutable loop state of `generate_bobfile_for_db`: cursor, column
tracker, processed names, widget-name counters, widgets added so far (screen
order), per-record groups (proof bookkeeping: the same widgets keyed by the
record that produced them), and the next fresh-uuid index. -/
structure GridState where
  x : Int
  y : Int
  colW : Nat
  seen : List String
  counters : List (WType × Nat)
  widgets : List GridWidget
  groups : List (String × List GridWidget)
  k : Nat
deriving DecidableEq

/-- The body of the record loop of `generate_bobfile_for_db` (lines 269-322):
skip unmapped types (warn), skip already-seen names, otherwise emit the
record's widget group, track the widest group, advance the cursor, and insert
a dividing line on a column wrap. -/
def processRecord (database : List Record) (macros : List (String × String))
    (config : EPICSDB2BOBConfig) (u : Nat → String) (s : GridState)
    (record : Record) : GridState :=
  if (alookup config.rtyp_to_widget_map record.rtyp).isNone then s
  else if record.name ∈ s.seen then s
  else
    match add_widget_for_record u s.k record s.x s.y macros config
        (readbackFor database record config) true with
    | Option.none => s
    | some (ws, k') =>
      if (get_next_widget_position s.x s.y (max ws.length s.colW) config).2 =
          (get_widget_start_positions config).2 then
        { x := (get_next_widget_position s.x s.y (max ws.length s.colW) config).1
          y := (get_next_widget_position s.x s.y (max ws.length s.colW) config).2
          colW := 2
          seen := s.seen ++ [record.name] ++
            ((readbackFor database record config).map Record.name).toList
          counters := (bumpCounter (renameAll s.counters ws).1 .rectangle).1
          widgets := s.widgets ++ (renameAll s.counters ws).2 ++
            [{ add_dividing_line u k'
                ((get_next_widget_position s.x s.y (max ws.length s.colW) config).1
                  - config.widget_offset)
                (get_next_widget_position s.x s.y (max ws.length s.colW) config).2 config with
               name := "Rectangle_" ++
                 toString (bumpCounter (renameAll s.counters ws).1 .rectangle).2 }]
          groups := s.groups ++ [(record.name, (renameAll s.counters ws).2)]
          k := k' + 1 }
      else
        { x := (get_next_widget_position s.x s.y (max ws.length s.colW) config).1
          y := (get_next_widget_position s.x s.y (max ws.length s.colW) config).2
          colW := max ws.length s.colW
          seen := s.seen ++ [record.name] ++
            ((readbackFor database record config).map Record.name).toList
          counters := (renameAll s.counters ws).1
          widgets := s.widgets ++ (renameAll s.counters ws).2
          groups := s.groups ++ [(record.name, (renameAll s.counters ws).2)]
          k := k' }

/-- Initial loop state (lines 254-266): cursor at the start positions, column
tracker 2; a minimal-format border consumes the first uuid and the
`Rectangle_1` counter slot before any record is processed. -/
def gridInitState (config : EPICSDB2BOBConfig) : GridState :=
  { x := (get_widget_start_positions config).1
    y := (get_widget_start_positions config).2
    colW := 2
    seen := []
    counters := if config.title_bar_format = .minimal then [(.rectangle, 1)] else []
    widgets := []
    groups := []
    k := if config.title_bar_format = .minimal then 1 else 0 }

/-- `add_title_bar` (lines 153-183); `none` for format NONE. -/
def add_title_bar (u : Nat → String) (k : Nat) (name : String)
    (config : EPICSDB2BOBConfig) (title_bar_width : Int) : Option GridWidget :=
  if config.title_bar_format = .none then Option.none
  else some
    { name := u k
      wtype := .label
      text := name
      x := if config.title_bar_format = .minimal then config.widget_offset else 0
      y := 0
      w := title_bar_width
      h := config.title_bar_heights config.title_bar_format }

/-- The generated screen: widgets in add order, the per-record groups
(bookkeeping), the final width/height, and the screen-level macros. -/
structure GridScreen where
  widgets : List GridWidget
  record_groups : List (String × List GridWidget)
  width : Int
  height : Int
  screenMacros : List (String × String)
deriving DecidableEq

/-- `generate_bobfile_for_db` (lines 249-354).  The minimal-format border is
added to the screen first with zero size and resized at the end through the
retained Python object reference; the model inserts it at the head with its
final size directly.  The title bar is renamed with the Label counter like
every other widget.  `u` is the stream of `short_uuid()` results. -/
def generate_bobfile_for_db (u : Nat → String) (name : String)
    (database : List Record) (macros : List (String × String))
    (config : EPICSDB2BOBConfig) : GridScreen :=
  let start := get_widget_start_positions config
  let s := database.foldl (processRecord database macros config u) (gridInitState config)
  let screen_width := get_next_x_position s.x s.colW config
  let screen_height :=
    if s.x ≠ start.1 then config.max_screen_height + config.widget_offset
    else s.y + config.widget_offset
  let titleList : List GridWidget :=
    match add_title_bar u s.k name config (screen_width - config.widget_offset) with
    | some tb => [{ tb with name := "Label_" ++ toString (bumpCounter s.counters .label).2 }]
    | Option.none => []
  let borderList : List GridWidget :=
    if config.title_bar_format = .minimal then
      [{ name := "Rectangle_1"
         wtype := .rectangle
         text := ""
         x := 0
         y := config.title_bar_heights .minimal / 2 + 1
         w := screen_width
         h := screen_height - config.title_bar_heights .minimal / 2 }]
    else []
  { widgets := borderList ++ s.widgets ++ titleList
    record_groups := s.groups
    width := screen_width
    height := screen_height
    screenMacros := if config.macroSetLevel = .screen then macros else [] }

/-! ## Claim C10: units with no mapped record -/

theorem processRecord_skip_unmapped (database : List Record) (macros) (config) (u)
    (s : GridState) (record : Record)
    (h : alookup config.rtyp_to_widget_map record.rtyp = Option.none) :
    processRecord database macros config u s record = s := by
  unfold processRecord
  rw [if_pos (by rw [h]; rfl)]

theorem foldl_processRecord_unmapped (database : List Record) (macros) (config) (u) :
    ∀ (l : List Record) (s : GridState),
      (∀ r ∈ l, alookup config.rtyp_to_widget_map r.rtyp = Option.none) →
      l.foldl (processRecord database macros config u) s = s := by
  intro l
  induction l with
  | nil => intro s _; rfl
  | cons r rest ih =>
    intro s hall
    rw [List.foldl_cons,
      processRecord_skip_unmapped database macros config u s r
        (hall r (List.mem_cons_self r rest))]
    exact ih s (fun q hq => hall q (List.mem_cons_of_mem r hq))

/-- C10 (confirmed).  A unit none of whose records has a mapped type tag
(including the empty unit) still yields a document of the fixed minimum size
implied by the column tracker's floor of 2:
width = widget_offset + 2*(default_widget_width + widget_offset) and
height = 2*widget_offset + the configured title-bar height, with no record
widget groups emitted.  (Defaults: 330 wide, 40 high for the minimal title
bar.) -/
theorem empty_unit_min_size (u : Nat → String) (name : String)
    (database : List Record) (macros : List (String × String))
    (config : EPICSDB2BOBConfig)
    (hunmapped : ∀ r ∈ database, alookup config.rtyp_to_widget_map r.rtyp = Option.none) :
    (generate_bobfile_for_db u name database macros config).width =
      config.widget_offset + 2 * (config.default_widget_width + config.widget_offset) ∧
    (generate_bobfile_for_db u name database macros config).height =
      2 * config.widget_offset + config.title_bar_heights config.title_bar_format ∧
    (generate_bobfile_for_db u name database macros config).record_groups = [] := by
  have hfold := foldl_processRecord_unmapped database macros config u database
    (gridInitState config) hunmapped
  simp only [generate_bobfile_for_db, hfold]
  refine ⟨?_, ?_, rfl⟩
  · simp only [gridInitState, get_next_x_position, get_widget_start_positions]
    push_cast
    ring
  · rw [if_neg (by simp [gridInitState])]
    simp only [gridInitState, get_widget_start_positions]
    ring

/-- Witness for C10: the empty unit at default configuration gives the
330x40 minimal document with no record groups. -/
theorem empty_unit_min_size_witness :
    (generate_bobfile_for_db (fun _ => "") "empty" [] [] defaultConfig).width = 10 + 2 * (150 + 10) ∧
    (generate_bobfile_for_db (fun _ => "") "empty" [] [] defaultConfig).height = 2 * 10 + 20 ∧
    (generate_bobfile_for_db (fun _ => "") "empty" [] [] defaultConfig).record_groups = [] := by
  have h := empty_unit_min_size (fun _ => "") "empty" [] [] defaultConfig
    (by intro r hr; simp at hr)
  simpa [defaultConfig] using h

/-! ## Claim C9: the layout is independent of the generated identifiers -/

/-- The uuid-independent part of a widget. -/
def widgetCore (wdg : GridWidget) : WType × String × Int × Int × Int × Int :=
  (wdg.wtype, wdg.text, wdg.x, wdg.y, wdg.w, wdg.h)

theorem rename_eq_of_core {a b : GridWidget} (h : widgetCore a = widgetCore b)
    (n : String) : { a with name := n } = { b with name := n } := by
  cases a
  cases b
  simp only [widgetCore, Prod.mk.injEq] at h
  obtain ⟨h1, h2, h3, h4, h5, h6⟩ := h
  subst h1; subst h2; subst h3; subst h4; subst h5; subst h6
  rfl

/-- One step of the renaming loop. -/
def renameStep (acc : List (WType × Nat) × List GridWidget) (wdg : GridWidget) :
    List (WType × Nat) × List GridWidget :=
  let bc := bumpCounter acc.1 wdg.wtype
  (bc.1, acc.2 ++ [{ wdg with name := wdg.wtype.typeName ++ "_" ++ toString bc.2 }])

theorem renameAll_eq_foldl (counters : List (WType × Nat)) (ws : List GridWidget) :
    renameAll counters ws = ws.foldl renameStep (counters, []) := rfl

theorem renameAll_congr_aux :
    ∀ (ws₁ ws₂ : List GridWidget),
      ws₁.map widgetCore = ws₂.map widgetCore →
      ∀ acc, ws₁.foldl renameStep acc = ws₂.foldl renameStep acc := by
  intro ws₁
  induction ws₁ with
  | nil =>
    intro ws₂ h acc
    cases ws₂ with
    | nil => rfl
    | cons b t => simp at h
  | cons a t₁ ih =>
    intro ws₂ h acc
    cases ws₂ with
    | nil => simp at h
    | cons b t₂ =>
      simp only [List.map_cons, List.cons.injEq] at h
      obtain ⟨hcore, ht⟩ := h
      rw [List.foldl_cons, List.foldl_cons]
      have hstep : renameStep acc a = renameStep acc b := by
        obtain ⟨an, aw, atxt, ax, ay, aww, ah⟩ := a
        obtain ⟨bn, bw, btxt, bx, byy, bww, bh⟩ := b
        simp only [widgetCore, Prod.mk.injEq] at hcore
        obtain ⟨h1, h2, h3, h4, h5, h6⟩ := hcore
        subst h1; subst h2; subst h3; subst h4; subst h5; subst h6
        rfl
      rw [hstep]
      exact ih t₂ ht _

theorem renameAll_congr {ws₁ ws₂ : List GridWidget}
    (h : ws₁.map widgetCore = ws₂.map widgetCore) (counters : List (WType × Nat)) :
    renameAll counters ws₁ = renameAll counters ws₂ := by
  rw [renameAll_eq_foldl, renameAll_eq_foldl]
  exact renameAll_congr_aux ws₁ ws₂ h (counters, [])

theorem add_widget_core_eq (u₁ u₂ : Nat → String) (k : Nat) (record : Record)
    (sx sy : Int) (macros : List (String × String)) (config : EPICSDB2BOBConfig)
    (rb : Option Record) (wl : Bool) :
    (add_widget_for_record u₁ k record sx sy macros config rb wl).map
        (fun r => (r.1.map widgetCore, r.2)) =
    (add_widget_for_record u₂ k record sx sy macros config rb wl).map
        (fun r => (r.1.map widgetCore, r.2)) := by
  cases halk : alookup config.rtyp_to_widget_map record.rtyp with
  | none => simp [add_widget_for_record, halk]
  | some wt =>
    cases rb with
    | none =>
      cases wl <;> simp [add_widget_for_record, halk, widgetCore,
        add_label_for_record, primaryWidgetFor]
    | some rbr =>
      cases halk2 : alookup config.rtyp_to_widget_map rbr.rtyp with
      | none => cases wl <;> simp [add_widget_for_record, halk, halk2]
      | some rbt =>
        cases wl <;> simp [add_widget_for_record, halk, halk2, widgetCore,
          add_label_for_record, primaryWidgetFor]

theorem processRecord_uuid (database : List Record) (macros) (config) (u₁ u₂ : Nat → String)
    (s : GridState) (record : Record) :
    processRecord database macros config u₁ s record =
      processRecord database macros config u₂ s record := by
  unfold processRecord
  by_cases h1 : (alookup config.rtyp_to_widget_map record.rtyp).isNone
  · rw [if_pos h1, if_pos h1]
  · rw [if_neg h1, if_neg h1]
    by_cases h2 : record.name ∈ s.seen
    · rw [if_pos h2, if_pos h2]
    · rw [if_neg h2, if_neg h2]
      have hcore := add_widget_core_eq u₁ u₂ s.k record s.x s.y macros config
        (readbackFor database record config) true
      cases ha1 : add_widget_for_record u₁ s.k record s.x s.y macros config
          (readbackFor database record config) true with
      | none =>
        cases ha2 : add_widget_for_record u₂ s.k record s.x s.y macros config
            (readbackFor database record config) true with
        | none => rfl
        | some p2 =>
          rw [ha1, ha2] at hcore
          simp at hcore
      | some p1 =>
        cases ha2 : add_widget_for_record u₂ s.k record s.x s.y macros config
            (readbackFor database record config) true with
        | none =>
          rw [ha1, ha2] at hcore
          simp at hcore
        | some p2 =>
          rw [ha1, ha2] at hcore
          simp only [Option.map_some', Option.some.injEq, Prod.mk.injEq] at hcore
          obtain ⟨hws, hk⟩ := hcore
          obtain ⟨ws₁, k₁⟩ := p1
          obtain ⟨ws₂, k₂⟩ := p2
          simp only at hws hk
          subst hk
          have hlen : ws₁.length = ws₂.length := by
            have hl := congrArg List.length hws
            simpa using hl
          have hrn : renameAll s.counters ws₁ = renameAll s.counters ws₂ :=
            renameAll_congr hws s.counters
          simp only [hlen, hrn]
          rfl

theorem generate_bobfile_for_db_uuid_eq (u₁ u₂ : Nat → String) (name : String)
    (database : List Record) (macros : List (String × String))
    (config : EPICSDB2BOBConfig) :
    generate_bobfile_for_db u₁ name database macros config =
      generate_bobfile_for_db u₂ name database macros config := by
  have hs : ∀ (l : List Record) (s0 : GridState),
      l.foldl (processRecord database macros config u₁) s0 =
        l.foldl (processRecord database macros config u₂) s0 := by
    intro l
    induction l with
    | nil => intro s0; rfl
    | cons r rest ih =>
      intro s0
      rw [List.foldl_cons, List.foldl_cons,
        processRecord_uuid database macros config u₁ u₂ s0 r]
      exact ih _
  unfold generate_bobfile_for_db
  rw [hs database (gridInitState config)]
  by_cases hfmt : config.title_bar_format = .none
  · simp [add_title_bar, hfmt]
  · simp [add_title_bar, hfmt]

/-- C9 (confirmed).  The grid layout is deterministic in its spatial output:
two runs of `generate_bobfile_for_db` on identical (unit, macros, config)
inputs that differ only in the stream of generated identifiers produce
identical sequences of element positions and sizes (in fact the grid engine
renames every widget with deterministic per-kind counters, so the screens are
equal outright; the theorem states the claimed spatial consequence). -/
theorem grid_layout_uuid_independent (u₁ u₂ : Nat → String) (name : String)
    (database : List Record) (macros : List (String × String))
    (config : EPICSDB2BOBConfig) :
    (generate_bobfile_for_db u₁ name database macros config).widgets.map
      (fun wdg => (wdg.x, wdg.y, wdg.w, wdg.h)) =
    (generate_bobfile_for_db u₂ name database macros config).widgets.map
      (fun wdg => (wdg.x, wdg.y, wdg.w, wdg.h)) := by
  rw [generate_bobfile_for_db_uuid_eq u₁ u₂ name database macros config]

/-! ## Claim C8: readback pairing -/

theorem renameStep_foldl_length :
    ∀ (ws : List GridWidget) (acc : List (WType × Nat) × List GridWidget),
      (ws.foldl renameStep acc).2.length = acc.2.length + ws.length := by
  intro ws
  induction ws with
  | nil => intro acc; simp
  | cons a t ih =>
    intro acc
    rw [List.foldl_cons, ih]
    simp [renameStep]
    omega

theorem renameAll_length (counters : List (WType × Nat)) (ws : List GridWidget) :
    (renameAll counters ws).2.length = ws.length := by
  rw [renameAll_eq_foldl, renameStep_foldl_length]
  simp

theorem add_widget_length_none (u : Nat → String) (k : Nat) (record : Record)
    (sx sy : Int) (macros : List (String × String)) (config : EPICSDB2BOBConfig)
    (wt : WType) (hmap : alookup config.rtyp_to_widget_map record.rtyp = some wt) :
    ∃ ws k', add_widget_for_record u k record sx sy macros config Option.none true =
      some (ws, k') ∧ ws.length = 2 := by
  unfold add_widget_for_record
  rw [hmap]
  exact ⟨_, _, rfl, rfl⟩

theorem add_widget_length_some (u : Nat → String) (k : Nat) (record rb : Record)
    (sx sy : Int) (macros : List (String × String)) (config : EPICSDB2BOBConfig)
    (wt rbt : WType) (hmap : alookup config.rtyp_to_widget_map record.rtyp = some wt)
    (hmaprb : alookup config.rtyp_to_widget_map rb.rtyp = some rbt) :
    ∃ ws k', add_widget_for_record u k record sx sy macros config (some rb) true =
      some (ws, k') ∧ ws.length = 3 := by
  simp only [add_widget_for_record, hmap, hmaprb]
  exact ⟨_, _, rfl, rfl⟩

/-- A readback accepted by `readbackFor` is mapped. -/
theorem readbackFor_mapped {database : List Record} {record : Record}
    {config : EPICSDB2BOBConfig} {rb : Record}
    (h : readbackFor database record config = some rb) :
    ∃ rbt, alookup config.rtyp_to_widget_map rb.rtyp = some rbt := by
  unfold readbackFor at h
  cases hf : database.find? (fun r => r.name == record.name ++ config.readback_suffix) with
  | none => rw [hf] at h; cases h
  | some r =>
    rw [hf] at h
    have h2 : (if (alookup config.rtyp_to_widget_map r.rtyp).isSome then some r
        else Option.none) = some rb := h
    by_cases hm : (alookup config.rtyp_to_widget_map r.rtyp).isSome
    · rw [if_pos hm] at h2
      obtain rfl : r = rb := by injection h2
      exact Option.isSome_iff_exists.mp hm
    · rw [if_neg hm] at h2
      cases h2

/-- A mapped, not-yet-seen record emits exactly one group: 3 widgets with an
accepted readback, 2 without; the record's name (and the readback's) are
marked seen. -/
theorem processRecord_emit (database : List Record) (macros : List (String × String))
    (config : EPICSDB2BOBConfig) (u : Nat → String) (s : GridState) (record : Record)
    (wt : WType) (hmap : alookup config.rtyp_to_widget_map record.rtyp = some wt)
    (hseen : record.name ∉ s.seen) :
    ∃ ws,
      (processRecord database macros config u s record).groups =
        s.groups ++ [(record.name, ws)] ∧
      (processRecord database macros config u s record).seen =
        s.seen ++ [record.name] ++
          ((readbackFor database record config).map Record.name).toList ∧
      ws.length = (match readbackFor database record config with
           | some _ => 3 | Option.none => 2) := by
  unfold processRecord
  rw [if_neg (by rw [hmap]; simp), if_neg hseen]
  cases hrb : readbackFor database record config with
  | none =>
    obtain ⟨ws0, k0, heq, hlen⟩ :=
      add_widget_length_none u s.k record s.x s.y macros config wt hmap
    rw [heq]
    refine ⟨(renameAll s.counters ws0).2, ?_, ?_, ?_⟩
    · split
      · next h => exact absurd h (by simp)
      · next ws1 k1 h =>
        obtain ⟨rfl, rfl⟩ : ws1 = ws0 ∧ k1 = k0 := by
          have h2 := h.symm
          simp only [Option.some.injEq, Prod.mk.injEq] at h2
          exact h2
        split <;> rfl
    · split
      · next h => exact absurd h (by simp)
      · next ws1 k1 h =>
        obtain ⟨rfl, rfl⟩ : ws1 = ws0 ∧ k1 = k0 := by
          have h2 := h.symm
          simp only [Option.some.injEq, Prod.mk.injEq] at h2
          exact h2
        split <;> rfl
    · rw [renameAll_length]
      exact hlen
  | some rb =>
    obtain ⟨rbt, hmaprb⟩ := readbackFor_mapped hrb
    obtain ⟨ws0, k0, heq, hlen⟩ :=
      add_widget_length_some u s.k record rb s.x s.y macros config wt rbt hmap hmaprb
    rw [heq]
    refine ⟨(renameAll s.counters ws0).2, ?_, ?_, ?_⟩
    · split
      · next h => exact absurd h (by simp)
      · next ws1 k1 h =>
        obtain ⟨rfl, rfl⟩ : ws1 = ws0 ∧ k1 = k0 := by
          have h2 := h.symm
          simp only [Option.some.injEq, Prod.mk.injEq] at h2
          exact h2
        split <;> rfl
    · split
      · next h => exact absurd h (by simp)
      · next ws1 k1 h =>
        obtain ⟨rfl, rfl⟩ : ws1 = ws0 ∧ k1 = k0 := by
          have h2 := h.symm
          simp only [Option.some.injEq, Prod.mk.injEq] at h2
          exact h2
        split <;> rfl
    · rw [renameAll_length]
      exact hlen

/-- Every step either leaves the state unchanged or emits one group for a
mapped unseen record, extending the seen list. -/
theorem processRecord_cases2 (database : List Record) (macros : List (String × String))
    (config : EPICSDB2BOBConfig) (u : Nat → String) (s : GridState) (record : Record) :
    (processRecord database macros config u s record = s) ∨
    ((∃ wt, alookup config.rtyp_to_widget_map record.rtyp = some wt) ∧
     record.name ∉ s.seen ∧
     ∃ ws rbn,
       (processRecord database macros config u s record).groups =
         s.groups ++ [(record.name, ws)] ∧
       (processRecord database macros config u s record).seen =
         s.seen ++ [record.name] ++ rbn) := by
  cases hmap : alookup config.rtyp_to_widget_map record.rtyp with
  | none => exact Or.inl (processRecord_skip_unmapped database macros config u s record hmap)
  | some wt =>
    by_cases hseen : record.name ∈ s.seen
    · left
      unfold processRecord
      rw [if_neg (by rw [hmap]; simp), if_pos hseen]
    · right
      obtain ⟨ws, hg, hs, _⟩ :=
        processRecord_emit database macros config u s record wt hmap hseen
      exact ⟨⟨wt, rfl⟩, hseen, ws, _, hg, hs⟩

/-- Folding a record list appends groups whose names were unseen at the start
and belong to mapped records of the list. -/
theorem foldl_groups_extra (database : List Record) (macros : List (String × String))
    (config : EPICSDB2BOBConfig) (u : Nat → String) :
    ∀ (l : List Record) (s : GridState),
      ∃ extra,
        (l.foldl (processRecord database macros config u) s).groups = s.groups ++ extra ∧
        ∀ n ∈ extra.map Prod.fst, n ∉ s.seen ∧
          ∃ rec ∈ l, rec.name = n ∧
            ∃ wt, alookup config.rtyp_to_widget_map rec.rtyp = some wt := by
  intro l
  induction l with
  | nil =>
    intro s
    exact ⟨[], by simp, by simp⟩
  | cons r rest ih =>
    intro s
    rw [List.foldl_cons]
    rcases processRecord_cases2 database macros config u s r with hskip | hemit
    · rw [hskip]
      obtain ⟨extra, hg, hnames⟩ := ih s
      refine ⟨extra, hg, ?_⟩
      intro n hn
      obtain ⟨hnseen, rec, hrec, hname, hwt⟩ := hnames n hn
      exact ⟨hnseen, rec, List.mem_cons_of_mem r hrec, hname, hwt⟩
    · obtain ⟨hmapped, hunseen, ws, rbn, hg, hs⟩ := hemit
      obtain ⟨extra, hg2, hnames⟩ := ih (processRecord database macros config u s r)
      refine ⟨(r.name, ws) :: extra, ?_, ?_⟩
      · rw [hg2, hg]
        simp
      · intro n hn
        rw [List.map_cons] at hn
        rcases List.mem_cons.mp hn with hhead | htail
        · subst hhead
          exact ⟨hunseen, r, List.mem_cons_self r rest, rfl, hmapped⟩
        · obtain ⟨hnseen, rec, hrec, hname, hwt⟩ := hnames n htail
          refine ⟨?_, rec, List.mem_cons_of_mem r hrec, hname, hwt⟩
          intro hnmem
          apply hnseen
          rw [hs]
          exact List.mem_append_left _ (List.mem_append_left _ hnmem)

/-- In a unit with distinct record names, a name determines the record. -/
theorem record_name_unique : ∀ (database : List Record),
    (database.map Record.name).Nodup →
    ∀ {r1 r2 : Record}, r1 ∈ database → r2 ∈ database → r1.name = r2.name → r1 = r2 := by
  intro database
  induction database with
  | nil => intro _ r1 r2 h1 _ _; simp at h1
  | cons r rest ih =>
    intro hnd r1 r2 h1 h2 hname
    have hnd2 : r.name ∉ rest.map Record.name ∧ (rest.map Record.name).Nodup := by
      rw [List.map_cons, List.nodup_cons] at hnd
      exact hnd
    rcases List.mem_cons.mp h1 with h1 | h1 <;> rcases List.mem_cons.mp h2 with h2 | h2
    · rw [h1, h2]
    · exfalso
      apply hnd2.1
      have hr : r.name = r2.name := by rw [← h1]; exact hname
      rw [hr]
      exact List.mem_map_of_mem Record.name h2
    · exfalso
      apply hnd2.1
      have hr : r.name = r1.name := by rw [← h2]; exact hname.symm
      rw [hr]
      exact List.mem_map_of_mem Record.name h1
    · exact ih hnd2.2 h1 h2 hname

/-- C8 (amended).  For a unit with distinct record names, consider a record X
with a mapped type tag that the layout reaches as a primary record (its name
not yet seen), such that a record named X + readback_suffix exists in the
unit.  If the counterpart's type tag is also mapped, the two are merged into
one widget group of three elements (label, primary widget, readback widget)
and no later group is emitted for the counterpart; if the counterpart's type
tag has NO widget mapping, X forms a two-element group and the counterpart is
NOT laid out as its own group — an unmapped record is skipped with a warning,
so no group of the document is named after it. -/
theorem readback_pairing (u : Nat → String) (name : String)
    (database pre post : List Record) (X rb : Record)
    (macros : List (String × String)) (config : EPICSDB2BOBConfig) (wt : WType)
    (hdb : database = pre ++ X :: post)
    (hnodup : (database.map Record.name).Nodup)
    (hmap : alookup config.rtyp_to_widget_map X.rtyp = some wt)
    (hfind : database.find? (fun r => r.name == X.name ++ config.readback_suffix) = some rb)
    (hseen : X.name ∉
      (pre.foldl (processRecord database macros config u) (gridInitState config)).seen) :
    ((∃ rbt, alookup config.rtyp_to_widget_map rb.rtyp = some rbt) →
      ∃ ws extra,
        (generate_bobfile_for_db u name database macros config).record_groups =
          (pre.foldl (processRecord database macros config u) (gridInitState config)).groups
            ++ [(X.name, ws)] ++ extra ∧
        ws.length = 3 ∧ rb.name ∉ extra.map Prod.fst) ∧
    (alookup config.rtyp_to_widget_map rb.rtyp = Option.none →
      ∃ ws extra,
        (generate_bobfile_for_db u name database macros config).record_groups =
          (pre.foldl (processRecord database macros config u) (gridInitState config)).groups
            ++ [(X.name, ws)] ++ extra ∧
        ws.length = 2 ∧
        rb.name ∉
          ((generate_bobfile_for_db u name database macros config).record_groups).map
            Prod.fst) := by
  subst hdb
  have hgroups : (generate_bobfile_for_db u name (pre ++ X :: post) macros config).record_groups =
      ((pre ++ X :: post).foldl (processRecord (pre ++ X :: post) macros config u)
        (gridInitState config)).groups := rfl
  have hsplit : (pre ++ X :: post).foldl (processRecord (pre ++ X :: post) macros config u)
      (gridInitState config) =
      post.foldl (processRecord (pre ++ X :: post) macros config u)
        (processRecord (pre ++ X :: post) macros config u
          (pre.foldl (processRecord (pre ++ X :: post) macros config u) (gridInitState config))
          X) := by
    rw [List.foldl_append, List.foldl_cons]
  constructor
  · rintro ⟨rbt, hmaprb⟩
    have hrbX : readbackFor (pre ++ X :: post) X config = some rb := by
      have h0 : readbackFor (pre ++ X :: post) X config =
          (if (alookup config.rtyp_to_widget_map rb.rtyp).isSome then some rb
           else Option.none) := by
        unfold readbackFor
        rw [hfind]
      rw [h0, if_pos (by rw [hmaprb]; rfl)]
    obtain ⟨ws, hg, hs, hlen⟩ := processRecord_emit (pre ++ X :: post) macros config u
      (pre.foldl (processRecord (pre ++ X :: post) macros config u) (gridInitState config))
      X wt hmap hseen
    have hlen3 : ws.length = 3 := by rw [hrbX] at hlen; exact hlen
    obtain ⟨extra, hextra, hnames⟩ := foldl_groups_extra (pre ++ X :: post) macros config u
      post (processRecord (pre ++ X :: post) macros config u
        (pre.foldl (processRecord (pre ++ X :: post) macros config u) (gridInitState config)) X)
    refine ⟨ws, extra, ?_, hlen3, ?_⟩
    · rw [hgroups, hsplit, hextra, hg]
    · intro hmem
      obtain ⟨hnseen, _, _, _, _⟩ := hnames rb.name hmem
      apply hnseen
      rw [hs, hrbX]
      simp
  · intro hmaprb
    have hrbX : readbackFor (pre ++ X :: post) X config = Option.none := by
      have h0 : readbackFor (pre ++ X :: post) X config =
          (if (alookup config.rtyp_to_widget_map rb.rtyp).isSome then some rb
           else Option.none) := by
        unfold readbackFor
        rw [hfind]
      rw [h0, if_neg (by rw [hmaprb]; simp)]
    obtain ⟨ws, hg, hs, hlen⟩ := processRecord_emit (pre ++ X :: post) macros config u
      (pre.foldl (processRecord (pre ++ X :: post) macros config u) (gridInitState config))
      X wt hmap hseen
    have hlen2 : ws.length = 2 := by rw [hrbX] at hlen; exact hlen
    obtain ⟨extra, hextra, hnames⟩ := foldl_groups_extra (pre ++ X :: post) macros config u
      post (processRecord (pre ++ X :: post) macros config u
        (pre.foldl (processRecord (pre ++ X :: post) macros config u) (gridInitState config)) X)
    refine ⟨ws, extra, ?_, hlen2, ?_⟩
    · rw [hgroups, hsplit, hextra, hg]
    · have hrbmem : rb ∈ pre ++ X :: post := List.mem_of_find?_eq_some hfind
      intro hmem
      rw [hgroups] at hmem
      obtain ⟨extraAll, hextraAll, hnamesAll⟩ := foldl_groups_extra (pre ++ X :: post)
        macros config u (pre ++ X :: post) (gridInitState config)
      rw [hextraAll] at hmem
      have hmem' : rb.name ∈ extraAll.map Prod.fst := by
        rw [List.map_append] at hmem
        rcases List.mem_append.mp hmem with h | h
        · simp [gridInitState] at h
        · exact h
      obtain ⟨_, rec, hrecdb, hrecname, ⟨wt2, hrecmap⟩⟩ := hnamesAll rb.name hmem'
      have hreceq : rec = rb :=
        record_name_unique (pre ++ X :: post) hnodup hrecdb hrbmem hrecname
      rw [hreceq, hmaprb] at hrecmap
      cases hrecmap

/-- C8, counterexample.  `A_RBV` exists but its type tag `waveform` has no
widget mapping: the claim says it is laid out as its own independent group,
but the code skips unmapped records entirely — the document's only group is
A's two-element group and no group is named `A_RBV`. -/
theorem unmapped_readback_skipped_not_own_group :
    alookup defaultConfig.rtyp_to_widget_map "waveform" = Option.none ∧
    ((generate_bobfile_for_db (fun _ => "u") "n"
        [⟨"A", "ao", []⟩, ⟨"A_RBV", "waveform", []⟩] [] defaultConfig).record_groups.map
      (fun g => (g.1, g.2.length))) = [("A", 2)] ∧
    "A_RBV" ∉ ((generate_bobfile_for_db (fun _ => "u") "n"
        [⟨"A", "ao", []⟩, ⟨"A_RBV", "waveform", []⟩] [] defaultConfig).record_groups.map
      Prod.fst) := by
  refine ⟨by decide, by decide, by decide⟩

/-- Witness for C8's theorem: `A` (ao) with mapped readback `A_RBV` (ai)
merges into one three-element group and no later group is the readback's. -/
theorem readback_pairing_witness :
    ∃ ws extra,
      (generate_bobfile_for_db (fun _ => "u") "n"
        [⟨"A", "ao", []⟩, ⟨"A_RBV", "ai", []⟩] [] defaultConfig).record_groups =
        (([] : List Record).foldl
          (processRecord [⟨"A", "ao", []⟩, ⟨"A_RBV", "ai", []⟩] [] defaultConfig
            (fun _ => "u"))
          (gridInitState defaultConfig)).groups ++ [("A", ws)] ++ extra ∧
      ws.length = 3 ∧ "A_RBV" ∉ extra.map Prod.fst := by
  have h := readback_pairing (fun _ => "u") "n"
    [⟨"A", "ao", []⟩, ⟨"A_RBV", "ai", []⟩] [] [⟨"A_RBV", "ai", []⟩]
    ⟨"A", "ao", []⟩ ⟨"A_RBV", "ai", []⟩ [] defaultConfig .textEntry
    rfl (by decide) (by decide) (by decide) (by decide)
  exact h.1 ⟨.textUpdate, by decide⟩

/-! ## Composite layout engine (`generate_bobfile_for_substitution`,
`bobfile_gen.py` lines 366-494) -/

/-- A widget of the substitution screen.  An action of a launcher button is
the tuple passed to `action_open_display`: (file, target, description,
macros).  The `template` field on `embedded` and `button` records which
template produced the widget: for buttons it is the `launcher_buttons` dict
key under which the Python code keeps a reference to the very same object it
put on the screen, so tagging the widget with the key models the shared
reference; it does not affect geometry. -/
inductive SubWidget where
  | embedded (name : String) (template : String) (file : String)
      (x y w h : Int) (macros : List (String × String))
  | button (name : String) (template : String) (text : String)
      (x y w h : Int)
      (actions : List (String × String × String × List (String × String)))
  | titleLabel (tb : GridWidget)
deriving DecidableEq

/-- `launcher_buttons[template].action_open_display(...)` (lines 433-439):
the Python code mutates the single button object for `template` in place;
the model applies the update to every widget of the screen list carrying
that template tag (there is at most one). -/
def addActionTo (template : String)
    (a : String × String × String × List (String × String)) :
    SubWidget → SubWidget
  | .button nm tpl txt x y w h acts =>
    if tpl = template then .button nm tpl txt x y w h (acts ++ [a])
    else .button nm tpl txt x y w h acts
  | w => w

/-- Mutable state of the substitution loop (lines 378-386): the screen's
widget list, the keys of `launcher_buttons`, the cursor, the column-width
tracker, the `hit_max_y_pos` flag and the uuid index `k`.  `launcherWraps`
and `embedWraps` count the column wraps taken on the launcher path (lines
463-474) and the embed path (lines 405-415); they are bookkeeping only: no
branch of the loop reads them. -/
structure SubState where
  widgets : List SubWidget
  buttons : List String
  x : Int
  y : Int
  max_col_width : Int
  hit_max_y_pos : Bool
  k : Nat
  launcherWraps : Nat
  embedWraps : Nat
deriving DecidableEq

/-- The embed branch (lines 399-431).  `hw` is the (height, width) pair that
`get_height_width_of_bobfile` reads back from the previously generated BOB
file.  Wrapping here does NOT set `hit_max_y_pos`. -/
def embedStep (config : EPICSDB2BOBConfig) (u : Nat → String)
    (template : String) (hw : Int × Int) (inst : List (String × String))
    (s : SubState) : SubState :=
  if s.y + (hw.1 + config.widget_offset) >
      config.max_screen_height + config.title_bar_heights .full then
    { s with
      widgets := s.widgets ++
        [.embedded (u s.k) template (template_to_bob template)
          (s.x + s.max_col_width + config.widget_offset)
          (config.widget_offset + config.title_bar_heights .full)
          (hw.2 + config.widget_offset) (hw.1 + config.widget_offset) inst]
      x := s.x + s.max_col_width + config.widget_offset
      y := config.widget_offset + config.title_bar_heights .full
        + (hw.1 + config.widget_offset) + config.widget_offset
      max_col_width :=
        if hw.2 + config.widget_offset > 0 then hw.2 + config.widget_offset
        else 0
      k := s.k + 1
      embedWraps := s.embedWraps + 1 }
  else
    { s with
      widgets := s.widgets ++
        [.embedded (u s.k) template (template_to_bob template)
          s.x s.y (hw.2 + config.widget_offset) (hw.1 + config.widget_offset)
          inst]
      y := s.y + (hw.1 + config.widget_offset) + config.widget_offset
      max_col_width :=
        if hw.2 + config.widget_offset > s.max_col_width
        then hw.2 + config.widget_offset else s.max_col_width
      k := s.k + 1 }

/-- The new launcher button of lines 442-456 with its first action. -/
def newLauncherButton (config : EPICSDB2BOBConfig) (u : Nat → String)
    (template : String) (i : Nat) (inst : List (String × String))
    (s : SubState) : SubWidget :=
  .button (u s.k) template (splitextRoot template) s.x s.y
    config.default_widget_width config.default_widget_height
    [(template_to_bob template, "tab",
      splitextRoot template ++ " " ++ toString (i + 1), inst)]

/-- The launcher branches (lines 433-474): add an action to the existing
button for `template`, or create the button, advance the cursor and possibly
wrap, setting `hit_max_y_pos`. -/
def launcherStep (config : EPICSDB2BOBConfig) (u : Nat → String)
    (template : String) (i : Nat) (inst : List (String × String))
    (s : SubState) : SubState :=
  if template ∈ s.buttons then
    { s with widgets := s.widgets.map (addActionTo template
        (template_to_bob template, "tab",
         splitextRoot template ++ " " ++ toString (i + 1), inst)) }
  else
    if s.y + config.default_widget_height + config.widget_offset >
        config.max_screen_height + config.title_bar_heights .full then
      { widgets := s.widgets ++ [newLauncherButton config u template i inst s]
        buttons := s.buttons ++ [template]
        x := s.x +
          (if config.default_widget_width > s.max_col_width
           then config.default_widget_width else s.max_col_width) +
          config.widget_offset
        y := config.widget_offset + config.title_bar_heights .full
        max_col_width := 0
        hit_max_y_pos := true
        k := s.k + 1
        launcherWraps := s.launcherWraps + 1
        embedWraps := s.embedWraps }
    else
      { widgets := s.widgets ++ [newLauncherButton config u template i inst s]
        buttons := s.buttons ++ [template]
        x := s.x
        y := s.y + config.default_widget_height + config.widget_offset
        max_col_width :=
          if config.default_widget_width > s.max_col_width
          then config.default_widget_width else s.max_col_width
        hit_max_y_pos := s.hit_max_y_pos
        k := s.k + 1
        launcherWraps := s.launcherWraps
        embedWraps := s.embedWraps }

/-- One iteration of the instance loop (lines 394-474).  `found` models
`found_bobfiles` composed with `get_height_width_of_bobfile`: for each known
BOB file name, the (height, width) read from it.  `ninst` is
`len(template_instances)`; `ii` is the `enumerate` pair. -/
def processInstance (found : List (String × Int × Int))
    (config : EPICSDB2BOBConfig) (u : Nat → String) (template : String)
    (ninst : Nat) (s : SubState) (ii : Nat × List (String × String)) :
    SubState :=
  match alookup found (template_to_bob template) with
  | some hw =>
    if config.embed = .all ∨ (config.embed = .single ∧ ninst = 1) then
      embedStep config u template hw ii.2 s
    else launcherStep config u template ii.1 ii.2 s
  | Option.none => launcherStep config u template ii.1 ii.2 s

/-- The template loop body (lines 391-394): iterate the template's instances
with their indices. -/
def processTemplate (found : List (String × Int × Int))
    (config : EPICSDB2BOBConfig) (u : Nat → String) (s : SubState)
    (entry : String × List (List (String × String))) : SubState :=
  entry.2.enum.foldl (processInstance found config u entry.1 entry.2.length) s

/-- Loop state before the first template (lines 378-386). -/
def subInitState (config : EPICSDB2BOBConfig) : SubState :=
  { widgets := []
    buttons := []
    x := config.widget_offset
    y := config.widget_offset + config.title_bar_heights config.title_bar_format
    max_col_width := 0
    hit_max_y_pos := false
    k := 0
    launcherWraps := 0
    embedWraps := 0 }

/-- The generated substitution screen: widgets in add order plus its final
width and height. -/
structure SubScreen where
  widgets : List SubWidget
  width : Int
  height : Int
deriving DecidableEq

/-- Lines 486-487: the title bar is added only when `add_title_bar`
returned one. -/
def titleListOf : Option GridWidget → List SubWidget
  | some tb => [.titleLabel tb]
  | Option.none => []

/-- `generate_bobfile_for_substitution` (lines 366-494): run the loop over
the substitution's templates, compute the final size (lines 476-479) and
append the title bar (lines 481-487). -/
def generate_bobfile_for_substitution (u : Nat → String)
    (substitution_name : String)
    (substitution : List (String × List (List (String × String))))
    (found_bobfiles : List (String × Int × Int))
    (config : EPICSDB2BOBConfig) : SubScreen :=
  let s := substitution.foldl (processTemplate found_bobfiles config u)
    (subInitState config)
  let screen_height :=
    if s.hit_max_y_pos then config.max_screen_height + config.widget_offset
    else s.y + config.widget_offset
  let screen_width := s.x + s.max_col_width + config.widget_offset
  { widgets := s.widgets ++ titleListOf (add_title_bar u s.k substitution_name
      config (screen_width - config.widget_offset))
    width := screen_width
    height := screen_height }

/-- Macro sets of the embedded displays generated for template `t`, in
widget order. -/
def embeddedMacrosFor (t : String) (ws : List SubWidget) :
    List (List (String × String)) :=
  ws.filterMap fun w => match w with
    | .embedded _ tpl _ _ _ _ _ m => if tpl = t then some m else Option.none
    | _ => Option.none

/-- Action lists of the launcher buttons generated for template `t`, in
widget order. -/
def buttonActionsFor (t : String) (ws : List SubWidget) :
    List (List (String × String × String × List (String × String))) :=
  ws.filterMap fun w => match w with
    | .button _ tpl _ _ _ _ _ acts => if tpl = t then some acts else Option.none
    | _ => Option.none

/-! ### Composite layout lemmas -/

lemma foldl_preserve {α σ : Type} (P : σ → Prop) (f : σ → α → σ)
    (hstep : ∀ s a, P s → P (f s a)) :
    ∀ (l : List α) (s : σ), P s → P (l.foldl f s) := by
  intro l
  induction l with
  | nil => intro s h; exact h
  | cons a l ih => intro s h; exact ih (f s a) (hstep s a h)

lemma embeddedMacrosFor_nil (t : String) : embeddedMacrosFor t [] = [] := rfl

lemma buttonActionsFor_nil (t : String) : buttonActionsFor t [] = [] := rfl

lemma embeddedMacrosFor_cons (t : String) (w : SubWidget) (ws : List SubWidget) :
    embeddedMacrosFor t (w :: ws) =
      (match w with
       | .embedded _ tpl _ _ _ _ _ m => if tpl = t then [m] else []
       | _ => []) ++ embeddedMacrosFor t ws := by
  cases w with
  | embedded nm tpl f x y wd h m =>
    by_cases h2 : tpl = t <;> simp [embeddedMacrosFor, h2, List.filterMap_cons]
  | button nm tpl txt x y wd h acts => simp [embeddedMacrosFor, List.filterMap_cons]
  | titleLabel tb => simp [embeddedMacrosFor, List.filterMap_cons]

lemma buttonActionsFor_cons (t : String) (w : SubWidget) (ws : List SubWidget) :
    buttonActionsFor t (w :: ws) =
      (match w with
       | .button _ tpl _ _ _ _ _ acts => if tpl = t then [acts] else []
       | _ => []) ++ buttonActionsFor t ws := by
  cases w with
  | embedded nm tpl f x y wd h m => simp [buttonActionsFor, List.filterMap_cons]
  | button nm tpl txt x y wd h acts =>
    by_cases h2 : tpl = t <;> simp [buttonActionsFor, h2, List.filterMap_cons]
  | titleLabel tb => simp [buttonActionsFor, List.filterMap_cons]

lemma embeddedMacrosFor_append (t : String) (ws vs : List SubWidget) :
    embeddedMacrosFor t (ws ++ vs) =
      embeddedMacrosFor t ws ++ embeddedMacrosFor t vs := by
  simp [embeddedMacrosFor, List.filterMap_append]

lemma buttonActionsFor_append (t : String) (ws vs : List SubWidget) :
    buttonActionsFor t (ws ++ vs) =
      buttonActionsFor t ws ++ buttonActionsFor t vs := by
  simp [buttonActionsFor, List.filterMap_append]

lemma embeddedMacrosFor_titleListOf (t : String) (ob : Option GridWidget) :
    embeddedMacrosFor t (titleListOf ob) = [] := by
  cases ob <;> rfl

lemma buttonActionsFor_titleListOf (t : String) (ob : Option GridWidget) :
    buttonActionsFor t (titleListOf ob) = [] := by
  cases ob <;> rfl

lemma embeddedMacrosFor_map_add (t t2 : String)
    (a : String × String × String × List (String × String)) :
    ∀ ws : List SubWidget,
      embeddedMacrosFor t (ws.map (addActionTo t2 a)) = embeddedMacrosFor t ws := by
  intro ws
  induction ws with
  | nil => rfl
  | cons w ws ih =>
    rw [List.map_cons, embeddedMacrosFor_cons, embeddedMacrosFor_cons, ih]
    congr 1
    cases w with
    | embedded nm tpl f x y wd h m => rfl
    | button nm tpl txt x y wd h acts =>
      by_cases h2 : tpl = t2 <;> simp [addActionTo, h2]
    | titleLabel tb => rfl

lemma buttonActionsFor_map_add_ne (t t2 : String) (hne : t2 ≠ t)
    (a : String × String × String × List (String × String)) :
    ∀ ws : List SubWidget,
      buttonActionsFor t (ws.map (addActionTo t2 a)) = buttonActionsFor t ws := by
  intro ws
  induction ws with
  | nil => rfl
  | cons w ws ih =>
    rw [List.map_cons, buttonActionsFor_cons, buttonActionsFor_cons, ih]
    congr 1
    cases w with
    | embedded nm tpl f x y wd h m => rfl
    | button nm tpl txt x y wd h acts =>
      by_cases h2 : tpl = t2
      · subst h2; simp [addActionTo, hne]
      · simp [addActionTo, h2]
    | titleLabel tb => rfl

lemma buttonActionsFor_map_add (t : String)
    (a : String × String × String × List (String × String)) :
    ∀ ws : List SubWidget,
      buttonActionsFor t (ws.map (addActionTo t a)) =
        (buttonActionsFor t ws).map (fun acts => acts ++ [a]) := by
  intro ws
  induction ws with
  | nil => rfl
  | cons w ws ih =>
    rw [List.map_cons, buttonActionsFor_cons, buttonActionsFor_cons,
      List.map_append, ih]
    congr 1
    cases w with
    | embedded nm tpl f x y wd h m => rfl
    | button nm tpl txt x y wd h acts =>
      by_cases h2 : tpl = t
      · subst h2; simp [addActionTo]
      · simp [addActionTo, h2]
    | titleLabel tb => rfl

/-- The embed branch appends exactly one embedded display for the template
with the instance as its macros, and leaves the launcher bookkeeping alone. -/
lemma embedStep_view (t : String) (config : EPICSDB2BOBConfig) (u : Nat → String)
    (hw : Int × Int) (inst : List (String × String)) (s : SubState) :
    embeddedMacrosFor t (embedStep config u t hw inst s).widgets
      = embeddedMacrosFor t s.widgets ++ [inst] ∧
    buttonActionsFor t (embedStep config u t hw inst s).widgets
      = buttonActionsFor t s.widgets ∧
    (embedStep config u t hw inst s).buttons = s.buttons := by
  unfold embedStep
  split <;>
    simp [embeddedMacrosFor_append, buttonActionsFor_append,
      embeddedMacrosFor_cons, buttonActionsFor_cons,
      embeddedMacrosFor_nil, buttonActionsFor_nil]

/-- The embed branch for a template other than `t` leaves `t`'s view alone. -/
lemma embedStep_view_other (t t2 : String) (hne : t2 ≠ t)
    (config : EPICSDB2BOBConfig) (u : Nat → String)
    (hw : Int × Int) (inst : List (String × String)) (s : SubState) :
    embeddedMacrosFor t (embedStep config u t2 hw inst s).widgets
      = embeddedMacrosFor t s.widgets ∧
    buttonActionsFor t (embedStep config u t2 hw inst s).widgets
      = buttonActionsFor t s.widgets ∧
    (embedStep config u t2 hw inst s).buttons = s.buttons := by
  unfold embedStep
  split <;>
    simp [embeddedMacrosFor_append, buttonActionsFor_append,
      embeddedMacrosFor_cons, buttonActionsFor_cons,
      embeddedMacrosFor_nil, buttonActionsFor_nil, hne]

lemma launcherStep_widgets_existing (config : EPICSDB2BOBConfig)
    (u : Nat → String) (t : String) (i : Nat) (inst : List (String × String))
    (s : SubState) (hmem : t ∈ s.buttons) :
    (launcherStep config u t i inst s).widgets
      = s.widgets.map (addActionTo t (template_to_bob t, "tab",
          splitextRoot t ++ " " ++ toString (i + 1), inst)) ∧
    (launcherStep config u t i inst s).buttons = s.buttons := by
  unfold launcherStep
  rw [if_pos hmem]
  exact ⟨rfl, rfl⟩

lemma launcherStep_widgets_new (config : EPICSDB2BOBConfig)
    (u : Nat → String) (t : String) (i : Nat) (inst : List (String × String))
    (s : SubState) (hmem : t ∉ s.buttons) :
    (launcherStep config u t i inst s).widgets
      = s.widgets ++ [newLauncherButton config u t i inst s] ∧
    (launcherStep config u t i inst s).buttons = s.buttons ++ [t] := by
  unfold launcherStep
  rw [if_neg hmem]
  split <;> exact ⟨rfl, rfl⟩

/-- The launcher branch for a template other than `t` leaves `t`'s view
alone. -/
lemma launcherStep_view_other (t t2 : String) (hne : t2 ≠ t)
    (config : EPICSDB2BOBConfig) (u : Nat → String) (i : Nat)
    (inst : List (String × String)) (s : SubState) :
    embeddedMacrosFor t (launcherStep config u t2 i inst s).widgets
      = embeddedMacrosFor t s.widgets ∧
    buttonActionsFor t (launcherStep config u t2 i inst s).widgets
      = buttonActionsFor t s.widgets ∧
    ((t ∈ (launcherStep config u t2 i inst s).buttons) ↔ t ∈ s.buttons) := by
  by_cases hmem : t2 ∈ s.buttons
  · obtain ⟨hw, hb⟩ := launcherStep_widgets_existing config u t2 i inst s hmem
    rw [hw, hb]
    exact ⟨embeddedMacrosFor_map_add t t2 _ s.widgets,
      buttonActionsFor_map_add_ne t t2 hne _ s.widgets, Iff.rfl⟩
  · obtain ⟨hw, hb⟩ := launcherStep_widgets_new config u t2 i inst s hmem
    rw [hw, hb]
    refine ⟨?_, ?_, ?_⟩
    · rw [embeddedMacrosFor_append]
      simp [embeddedMacrosFor_cons, embeddedMacrosFor_nil, newLauncherButton]
    · rw [buttonActionsFor_append]
      simp [buttonActionsFor_cons, buttonActionsFor_nil, newLauncherButton, hne]
    · have hne2 : t ≠ t2 := fun h => hne h.symm
      simp [List.mem_append, hne2]

/-- When the embed condition of lines 395-398 holds for the template, the
instance step is the embed branch. -/
lemma processInstance_embed (found : List (String × Int × Int))
    (config : EPICSDB2BOBConfig) (u : Nat → String) (t : String) (n : Nat)
    (s : SubState) (ii : Nat × List (String × String)) (hw : Int × Int)
    (hfind : alookup found (template_to_bob t) = some hw)
    (hpol : config.embed = .all ∨ (config.embed = .single ∧ n = 1)) :
    processInstance found config u t n s ii = embedStep config u t hw ii.2 s := by
  unfold processInstance
  rw [hfind]
  exact if_pos hpol

/-- When the embed condition fails, the instance step is the launcher
branch. -/
lemma processInstance_launcher (found : List (String × Int × Int))
    (config : EPICSDB2BOBConfig) (u : Nat → String) (t : String) (n : Nat)
    (s : SubState) (ii : Nat × List (String × String))
    (hcond : ¬ ((alookup found (template_to_bob t)).isSome ∧
      (config.embed = .all ∨ (config.embed = .single ∧ n = 1)))) :
    processInstance found config u t n s ii
      = launcherStep config u t ii.1 ii.2 s := by
  unfold processInstance
  cases hfind : alookup found (template_to_bob t) with
  | none => rfl
  | some hw =>
    have hpol : ¬ (config.embed = .all ∨ (config.embed = .single ∧ n = 1)) :=
      fun hp => hcond ⟨by rw [hfind]; rfl, hp⟩
    exact if_neg hpol

/-- The `hit_max_y_pos` flag agrees with the launcher-wrap counter: the flag
is set exactly when at least one launcher-path wrap has happened. -/
def SubInv (s : SubState) : Prop := s.hit_max_y_pos = true ↔ s.launcherWraps ≠ 0

lemma subInv_embedStep (config : EPICSDB2BOBConfig) (u : Nat → String)
    (t : String) (hw : Int × Int) (inst : List (String × String))
    (s : SubState) (h : SubInv s) : SubInv (embedStep config u t hw inst s) := by
  unfold embedStep
  split <;> exact h

lemma subInv_launcherStep (config : EPICSDB2BOBConfig) (u : Nat → String)
    (t : String) (i : Nat) (inst : List (String × String))
    (s : SubState) (h : SubInv s) : SubInv (launcherStep config u t i inst s) := by
  unfold launcherStep
  split
  · exact h
  · split
    · exact ⟨fun _ => Nat.succ_ne_zero _, fun _ => rfl⟩
    · exact h

lemma subInv_processInstance (found : List (String × Int × Int))
    (config : EPICSDB2BOBConfig) (u : Nat → String) (t : String) (n : Nat)
    (s : SubState) (ii : Nat × List (String × String)) (h : SubInv s) :
    SubInv (processInstance found config u t n s ii) := by
  by_cases hcond : (alookup found (template_to_bob t)).isSome ∧
      (config.embed = .all ∨ (config.embed = .single ∧ n = 1))
  · obtain ⟨hsome, hpol⟩ := hcond
    obtain ⟨hw, hfind⟩ := Option.isSome_iff_exists.mp hsome
    rw [processInstance_embed found config u t n s ii hw hfind hpol]
    exact subInv_embedStep config u t hw ii.2 s h
  · rw [processInstance_launcher found config u t n s ii hcond]
    exact subInv_launcherStep config u t ii.1 ii.2 s h

lemma subInv_processTemplate (found : List (String × Int × Int))
    (config : EPICSDB2BOBConfig) (u : Nat → String) (s : SubState)
    (e : String × List (List (String × String))) (h : SubInv s) :
    SubInv (processTemplate found config u s e) :=
  foldl_preserve SubInv (processInstance found config u e.1 e.2.length)
    (fun s2 a h2 => subInv_processInstance found config u e.1 e.2.length s2 a h2)
    e.2.enum s h

lemma subInv_fold (found : List (String × Int × Int))
    (config : EPICSDB2BOBConfig) (u : Nat → String)
    (subs : List (String × List (List (String × String)))) :
    SubInv (subs.foldl (processTemplate found config u) (subInitState config)) :=
  foldl_preserve SubInv (processTemplate found config u)
    (fun s e h => subInv_processTemplate found config u s e h)
    subs (subInitState config) (by unfold SubInv subInitState; simp)

/-- Instance fold over the template's own instances when the embed condition
holds: one embedded display per instance, in order; launcher bookkeeping
untouched. -/
lemma foldl_embed_view (found : List (String × Int × Int))
    (config : EPICSDB2BOBConfig) (u : Nat → String) (t : String) (n : Nat)
    (hw : Int × Int)
    (hfind : alookup found (template_to_bob t) = some hw)
    (hpol : config.embed = .all ∨ (config.embed = .single ∧ n = 1)) :
    ∀ (pairs : List (Nat × List (String × String))) (s : SubState),
      embeddedMacrosFor t
          ((pairs.foldl (processInstance found config u t n) s).widgets)
        = embeddedMacrosFor t s.widgets ++ pairs.map Prod.snd ∧
      buttonActionsFor t
          ((pairs.foldl (processInstance found config u t n) s).widgets)
        = buttonActionsFor t s.widgets ∧
      (pairs.foldl (processInstance found config u t n) s).buttons
        = s.buttons := by
  intro pairs
  induction pairs with
  | nil => intro s; simp
  | cons p ps ih =>
    intro s
    rw [List.foldl_cons, processInstance_embed found config u t n s p hw hfind hpol]
    obtain ⟨he, hb, hbs⟩ := embedStep_view t config u hw p.2 s
    obtain ⟨ihe, ihb, ihbs⟩ := ih (embedStep config u t hw p.2 s)
    refine ⟨?_, ?_, ?_⟩
    · rw [ihe, he, List.map_cons, List.append_assoc]
      rfl
    · rw [ihb, hb]
    · rw [ihbs, hbs]

/-- The launcher-side bookkeeping for template `t`: either no button exists
yet and its action view is empty, or the button exists and carries the
single action list `acts`. -/
def LState (t : String) (s : SubState)
    (acts : List (String × String × String × List (String × String))) : Prop :=
  (t ∈ s.buttons ∧ buttonActionsFor t s.widgets = [acts]) ∨
    (t ∉ s.buttons ∧ buttonActionsFor t s.widgets = [] ∧ acts = [])

/-- The description-tagged action tuple lines 434-439 and 451-456 attach for
instance index `i`. -/
def actionOf (t : String) (p : Nat × List (String × String)) :
    String × String × String × List (String × String) :=
  (template_to_bob t, "tab", splitextRoot t ++ " " ++ toString (p.1 + 1), p.2)

lemma launcherStep_LState (config : EPICSDB2BOBConfig) (u : Nat → String)
    (t : String) (p : Nat × List (String × String)) (s : SubState)
    (acts : List (String × String × String × List (String × String)))
    (h : LState t s acts) :
    LState t (launcherStep config u t p.1 p.2 s) (acts ++ [actionOf t p]) ∧
    embeddedMacrosFor t (launcherStep config u t p.1 p.2 s).widgets
      = embeddedMacrosFor t s.widgets := by
  rcases h with ⟨hmem, hacts⟩ | ⟨hmem, hacts, hnil⟩
  · obtain ⟨hwg, hbs⟩ := launcherStep_widgets_existing config u t p.1 p.2 s hmem
    have hwg2 : (launcherStep config u t p.1 p.2 s).widgets
        = s.widgets.map (addActionTo t (actionOf t p)) := hwg
    refine ⟨Or.inl ⟨hbs ▸ hmem, ?_⟩, ?_⟩
    · rw [hwg2, buttonActionsFor_map_add t (actionOf t p) s.widgets, hacts]
      rfl
    · rw [hwg2]
      exact embeddedMacrosFor_map_add t t (actionOf t p) s.widgets
  · obtain ⟨hwg, hbs⟩ := launcherStep_widgets_new config u t p.1 p.2 s hmem
    refine ⟨Or.inl ⟨?_, ?_⟩, ?_⟩
    · rw [hbs]
      exact List.mem_append_right _ (List.mem_singleton.mpr rfl)
    · rw [hwg, buttonActionsFor_append, hacts, hnil]
      simp [buttonActionsFor_cons, buttonActionsFor_nil, newLauncherButton,
        actionOf]
    · rw [hwg, embeddedMacrosFor_append]
      simp [embeddedMacrosFor_cons, embeddedMacrosFor_nil, newLauncherButton]

/-- Instance fold over the template's own instances when the embed condition
fails: every instance goes to the single launcher button for the template,
appending its action; no embedded display is produced. -/
lemma foldl_launcher_LState (found : List (String × Int × Int))
    (config : EPICSDB2BOBConfig) (u : Nat → String) (t : String) (n : Nat)
    (hcond : ¬ ((alookup found (template_to_bob t)).isSome ∧
      (config.embed = .all ∨ (config.embed = .single ∧ n = 1)))) :
    ∀ (pairs : List (Nat × List (String × String))) (s : SubState)
      (acts : List (String × String × String × List (String × String))),
      LState t s acts →
      LState t (pairs.foldl (processInstance found config u t n) s)
        (acts ++ pairs.map (actionOf t)) ∧
      embeddedMacrosFor t
          ((pairs.foldl (processInstance found config u t n) s).widgets)
        = embeddedMacrosFor t s.widgets := by
  intro pairs
  induction pairs with
  | nil =>
    intro s acts h
    rw [List.foldl_nil, List.map_nil, List.append_nil]
    exact ⟨h, rfl⟩
  | cons p ps ih =>
    intro s acts h
    rw [List.foldl_cons, processInstance_launcher found config u t n s p hcond]
    obtain ⟨h1, h2⟩ := launcherStep_LState config u t p s acts h
    obtain ⟨ih1, ih2⟩ := ih (launcherStep config u t p.1 p.2 s)
      (acts ++ [actionOf t p]) h1
    refine ⟨?_, by rw [ih2, h2]⟩
    rw [List.map_cons]
    have : acts ++ [actionOf t p] ++ List.map (actionOf t) ps
        = acts ++ (actionOf t p :: List.map (actionOf t) ps) := by
      rw [List.append_assoc]
      rfl
    rw [← this]
    exact ih1

/-- Templates other than `t` leave `t`'s view (embedded macro lists, button
action lists, button existence) unchanged. -/
lemma processInstance_view_other (found : List (String × Int × Int))
    (config : EPICSDB2BOBConfig) (u : Nat → String) (t t2 : String)
    (hne : t2 ≠ t) (n : Nat) (s : SubState)
    (ii : Nat × List (String × String)) :
    embeddedMacrosFor t (processInstance found config u t2 n s ii).widgets
      = embeddedMacrosFor t s.widgets ∧
    buttonActionsFor t (processInstance found config u t2 n s ii).widgets
      = buttonActionsFor t s.widgets ∧
    ((t ∈ (processInstance found config u t2 n s ii).buttons) ↔ t ∈ s.buttons) := by
  by_cases hcond : (alookup found (template_to_bob t2)).isSome ∧
      (config.embed = .all ∨ (config.embed = .single ∧ n = 1))
  · obtain ⟨hsome, hpol⟩ := hcond
    obtain ⟨hw, hfind⟩ := Option.isSome_iff_exists.mp hsome
    rw [processInstance_embed found config u t2 n s ii hw hfind hpol]
    obtain ⟨h1, h2, h3⟩ := embedStep_view_other t t2 hne config u hw ii.2 s
    exact ⟨h1, h2, by rw [h3]⟩
  · rw [processInstance_launcher found config u t2 n s ii hcond]
    exact launcherStep_view_other t t2 hne config u ii.1 ii.2 s

lemma foldl_view_other (found : List (String × Int × Int))
    (config : EPICSDB2BOBConfig) (u : Nat → String) (t : String) :
    ∀ (entries : List (String × List (List (String × String)))) (s : SubState),
      (∀ e ∈ entries, e.1 ≠ t) →
      embeddedMacrosFor t
          ((entries.foldl (processTemplate found config u) s).widgets)
        = embeddedMacrosFor t s.widgets ∧
      buttonActionsFor t
          ((entries.foldl (processTemplate found config u) s).widgets)
        = buttonActionsFor t s.widgets ∧
      ((t ∈ (entries.foldl (processTemplate found config u) s).buttons)
        ↔ t ∈ s.buttons) := by
  intro entries
  induction entries with
  | nil => intro s hne; exact ⟨rfl, rfl, Iff.rfl⟩
  | cons e rest ih =>
    intro s hne
    rw [List.foldl_cons]
    have hstep : embeddedMacrosFor t (processTemplate found config u s e).widgets
          = embeddedMacrosFor t s.widgets ∧
        buttonActionsFor t (processTemplate found config u s e).widgets
          = buttonActionsFor t s.widgets ∧
        ((t ∈ (processTemplate found config u s e).buttons) ↔ t ∈ s.buttons) := by
      unfold processTemplate
      have hgen := foldl_preserve
        (fun s2 => embeddedMacrosFor t s2.widgets = embeddedMacrosFor t s.widgets ∧
          buttonActionsFor t s2.widgets = buttonActionsFor t s.widgets ∧
          ((t ∈ s2.buttons) ↔ t ∈ s.buttons))
        (processInstance found config u e.1 e.2.length)
        (fun s2 a h2 => by
          obtain ⟨p1, p2, p3⟩ := processInstance_view_other found config u t e.1
            (hne e (List.mem_cons_self e rest)) e.2.length s2 a
          exact ⟨p1.trans h2.1, p2.trans h2.2.1, p3.trans h2.2.2⟩)
        e.2.enum s ⟨rfl, rfl, Iff.rfl⟩
      exact hgen
    obtain ⟨q1, q2, q3⟩ := ih (processTemplate found config u s e)
      (fun e2 he2 => hne e2 (List.mem_cons_of_mem e he2))
    exact ⟨q1.trans hstep.1, q2.trans hstep.2.1, q3.trans hstep.2.2⟩

/-- The title bar appended at the end contributes to neither of `t`'s widget
projections. -/
lemma sub_widgets_proj (t : String) (u : Nat → String) (name : String)
    (subs : List (String × List (List (String × String))))
    (found : List (String × Int × Int)) (config : EPICSDB2BOBConfig) :
    embeddedMacrosFor t
        (generate_bobfile_for_substitution u name subs found config).widgets
      = embeddedMacrosFor t
          ((subs.foldl (processTemplate found config u)
            (subInitState config)).widgets) ∧
    buttonActionsFor t
        (generate_bobfile_for_substitution u name subs found config).widgets
      = buttonActionsFor t
          ((subs.foldl (processTemplate found config u)
            (subInitState config)).widgets) := by
  constructor
  · simp only [generate_bobfile_for_substitution]
    rw [embeddedMacrosFor_append, embeddedMacrosFor_titleListOf, List.append_nil]
  · simp only [generate_bobfile_for_substitution]
    rw [buttonActionsFor_append, buttonActionsFor_titleListOf, List.append_nil]

/-- C7 (amended): the final height of a substitution screen is the ceiling
value (max screen height plus offset) exactly when `hit_max_y_pos` is set,
and the flag records LAUNCHER-path wraps only: it is set if and only if at
least one launcher-button wrap happened; embed-path wraps do not set it.
The height is otherwise the final cursor y plus the offset, and the width
is the final cursor x plus the tracked column width plus the offset. -/
theorem sub_final_dims (u : Nat → String) (name : String)
    (subs : List (String × List (List (String × String))))
    (found : List (String × Int × Int)) (config : EPICSDB2BOBConfig) :
    ((subs.foldl (processTemplate found config u)
        (subInitState config)).hit_max_y_pos = true
      ↔ (subs.foldl (processTemplate found config u)
          (subInitState config)).launcherWraps ≠ 0) ∧
    (generate_bobfile_for_substitution u name subs found config).height
      = (if (subs.foldl (processTemplate found config u)
            (subInitState config)).hit_max_y_pos
         then config.max_screen_height + config.widget_offset
         else (subs.foldl (processTemplate found config u)
            (subInitState config)).y + config.widget_offset) ∧
    (generate_bobfile_for_substitution u name subs found config).width
      = (subs.foldl (processTemplate found config u) (subInitState config)).x
        + (subs.foldl (processTemplate found config u)
            (subInitState config)).max_col_width
        + config.widget_offset :=
  ⟨subInv_fold found config u subs, rfl, rfl⟩

/-- C7 counterexample: a single embedded display 1201 raw pixels tall wraps
on the embed path (the wrap counter reads 1) yet `hit_max_y_pos` stays
false, so the final height is the cursor value 1281, NOT the ceiling
1200 + 10 = 1210 the claim requires for a layout with a wrap. -/
theorem embed_wrap_height_not_ceiling :
    ([("T", [[]])].foldl
        (processTemplate [("T.bob", (1201, 100))] defaultConfig (fun _ => "u"))
        (subInitState defaultConfig)).embedWraps = 1 ∧
    ([("T", [[]])].foldl
        (processTemplate [("T.bob", (1201, 100))] defaultConfig (fun _ => "u"))
        (subInitState defaultConfig)).launcherWraps = 0 ∧
    ([("T", [[]])].foldl
        (processTemplate [("T.bob", (1201, 100))] defaultConfig (fun _ => "u"))
        (subInitState defaultConfig)).hit_max_y_pos = false ∧
    (generate_bobfile_for_substitution (fun _ => "u") "n" [("T", [[]])]
        [("T.bob", (1201, 100))] defaultConfig).height = 1281 ∧
    defaultConfig.max_screen_height + defaultConfig.widget_offset = 1210 ∧
    (generate_bobfile_for_substitution (fun _ => "u") "n" [("T", [[]])]
        [("T.bob", (1201, 100))] defaultConfig).height
      ≠ defaultConfig.max_screen_height + defaultConfig.widget_offset := by
  exact ⟨by decide, by decide, by decide, by decide, by decide, by decide⟩

/-- C6: for a substitution with distinct template names containing
`(t, insts)`, the instances of `t` are embedded exactly when a previously
generated display is known for `t`'s BOB file and the embed policy admits it
(ALL, or SINGLE with exactly one instance): in that case one embedded
display per instance appears (carrying the instance's macros, in order) and
no launcher button exists for `t`; otherwise no instance of `t` is embedded
and, if `t` has any instance at all, exactly ONE launcher button for `t`
exists, whose action list aggregates every instance of `t` in order. -/
theorem embed_iff_and_single_launcher (u : Nat → String) (name : String)
    (subs : List (String × List (List (String × String))))
    (found : List (String × Int × Int)) (config : EPICSDB2BOBConfig)
    (t : String) (insts : List (List (String × String)))
    (hnd : (subs.map Prod.fst).Nodup) (hmem : (t, insts) ∈ subs) :
    ((alookup found (template_to_bob t)).isSome ∧
        (config.embed = .all ∨ (config.embed = .single ∧ insts.length = 1)) →
      embeddedMacrosFor t
          (generate_bobfile_for_substitution u name subs found config).widgets
        = insts ∧
      buttonActionsFor t
          (generate_bobfile_for_substitution u name subs found config).widgets
        = []) ∧
    (¬ ((alookup found (template_to_bob t)).isSome ∧
        (config.embed = .all ∨ (config.embed = .single ∧ insts.length = 1))) →
      embeddedMacrosFor t
          (generate_bobfile_for_substitution u name subs found config).widgets
        = [] ∧
      (insts = [] →
        buttonActionsFor t
          (generate_bobfile_for_substitution u name subs found config).widgets
          = []) ∧
      (insts ≠ [] →
        ∃ acts,
          buttonActionsFor t
            (generate_bobfile_for_substitution u name subs found config).widgets
            = [acts] ∧
          acts.map (fun a => a.2.2.2) = insts)) := by
  obtain ⟨l1, l2, rfl⟩ := List.append_of_mem hmem
  have hmap : ((l1 ++ (t, insts) :: l2).map Prod.fst)
      = l1.map Prod.fst ++ t :: l2.map Prod.fst := by simp
  rw [hmap, List.nodup_append] at hnd
  obtain ⟨hnd1, hnd2, hdisj⟩ := hnd
  have ht1 : ∀ e ∈ l1, e.1 ≠ t := by
    intro e he heq
    exact hdisj (List.mem_map_of_mem Prod.fst he)
      (heq ▸ List.mem_cons_self t (l2.map Prod.fst))
  have ht2 : ∀ e ∈ l2, e.1 ≠ t := by
    intro e he heq
    exact (List.nodup_cons.mp hnd2).1 (heq ▸ List.mem_map_of_mem Prod.fst he)
  have hfold : ((l1 ++ (t, insts) :: l2).foldl (processTemplate found config u)
      (subInitState config))
      = l2.foldl (processTemplate found config u)
          (processTemplate found config u
            (l1.foldl (processTemplate found config u) (subInitState config))
            (t, insts)) := by
    rw [List.foldl_append, List.foldl_cons]
  obtain ⟨v1, v2, v3⟩ := foldl_view_other found config u t l1 (subInitState config) ht1
  have hv1 : embeddedMacrosFor t
      ((l1.foldl (processTemplate found config u) (subInitState config)).widgets)
      = [] := v1
  have hv2 : buttonActionsFor t
      ((l1.foldl (processTemplate found config u) (subInitState config)).widgets)
      = [] := v2
  have hnb1 : t ∉ (l1.foldl (processTemplate found config u)
      (subInitState config)).buttons := by
    intro hmem2
    have hx := v3.mp hmem2
    simp [subInitState] at hx
  have hpt : processTemplate found config u
        (l1.foldl (processTemplate found config u) (subInitState config))
        (t, insts)
      = insts.enum.foldl (processInstance found config u t insts.length)
        (l1.foldl (processTemplate found config u) (subInitState config)) := rfl
  obtain ⟨hsp1, hsp2⟩ := sub_widgets_proj t u name (l1 ++ (t, insts) :: l2)
    found config
  constructor
  · intro hcond
    obtain ⟨hsome, hpol⟩ := hcond
    obtain ⟨hw, hfind⟩ := Option.isSome_iff_exists.mp hsome
    obtain ⟨e1, e2, e3⟩ := foldl_embed_view found config u t insts.length hw
      hfind hpol insts.enum
      (l1.foldl (processTemplate found config u) (subInitState config))
    obtain ⟨q1, q2, q3⟩ := foldl_view_other found config u t l2
      (processTemplate found config u
        (l1.foldl (processTemplate found config u) (subInitState config))
        (t, insts)) ht2
    constructor
    · rw [hsp1, hfold, q1, hpt, e1, hv1, List.nil_append, List.enum_map_snd]
    · rw [hsp2, hfold, q2, hpt, e2, hv2]
  · intro hcond
    obtain ⟨f1, f2⟩ := foldl_launcher_LState found config u t insts.length hcond
      insts.enum
      (l1.foldl (processTemplate found config u) (subInitState config))
      [] (Or.inr ⟨hnb1, hv2, rfl⟩)
    obtain ⟨q1, q2, q3⟩ := foldl_view_other found config u t l2
      (processTemplate found config u
        (l1.foldl (processTemplate found config u) (subInitState config))
        (t, insts)) ht2
    refine ⟨?_, ?_, ?_⟩
    · rw [hsp1, hfold, q1, hpt, f2, hv1]
    · intro hins
      subst hins
      rw [hsp2, hfold, q2, hpt]
      simp only [List.enum_nil, List.foldl_nil]
      exact hv2
    · intro hins
      have hne : ([] : List (String × String × String × List (String × String)))
          ++ insts.enum.map (actionOf t) ≠ [] := by
        rw [List.nil_append]
        intro hx
        apply hins
        have hlen := congrArg List.length hx
        simp at hlen
        exact hlen
      rcases f1 with ⟨hbmem, hbacts⟩ | ⟨hbmem, hbacts, hnil⟩
      · refine ⟨[] ++ insts.enum.map (actionOf t), ?_, ?_⟩
        · rw [hsp2, hfold, q2, hpt]
          exact hbacts
        · rw [List.nil_append, List.map_map]
          have hcomp : ((fun a => a.2.2.2) ∘ actionOf t)
              = (Prod.snd : Nat × List (String × String)
                  → List (String × String)) := by
            funext p
            rfl
          rw [hcomp, List.enum_map_snd]
      · exact absurd hnil hne

/-- Witness for C6: with the default config (embed policy SINGLE) a template
with a known prior display but TWO instances falls back to the launcher
path, producing exactly one button whose two actions carry the two macro
sets in order. -/
theorem embed_iff_and_single_launcher_witness :
    ∃ acts,
      buttonActionsFor "T"
        (generate_bobfile_for_substitution (fun _ => "u") "n"
          [("T", [[("P", "a")], [("P", "b")]])] [("T.bob", (100, 100))]
          defaultConfig).widgets = [acts] ∧
      acts.map (fun a => a.2.2.2) = [[("P", "a")], [("P", "b")]] := by
  have h := embed_iff_and_single_launcher (fun _ => "u") "n"
    [("T", [[("P", "a")], [("P", "b")]])] [("T.bob", (100, 100))] defaultConfig
    "T" [[("P", "a")], [("P", "b")]] (by decide) (by decide)
  exact (h.2 (by decide)).2.2 (by decide)

end EpicsDb2Bob
